import Mathlib

/-!
Verification of the bucket-path resolution and value-classification engine of
boltdbui (src/main.go).

Go byte strings (both bucket/key names and raw values) are modelled as
`List Nat` (each element one byte).  Go text output (previews, markers) is
likewise a byte string, so previews are `List Nat` as well.  The bolt store is
modelled as a tree of named nodes: a node is either a key/value leaf or a
sub-bucket; a transaction root holds a list of named top-level buckets.
-/

/-- ASCII string literal to byte list.  Only used with ASCII content, where a
Go string's bytes coincide with the code points. -/
def str2bytes (s : String) : List Nat := s.toList.map (fun c => c.toNat)

/-- A node of the bolt tree: either a value leaf or a sub-bucket with named
children (in the store's iteration order). -/
inductive Node where
  | leaf (v : List Nat)
  | bucket (entries : List (List Nat × Node))

/-- `tx`-level view: the named top-level buckets. -/
abbrev Store := List (List Nat × Node)

/-- `tx.Bucket(name)`: look up a top-level bucket (the bolt root only holds
buckets, so no leaf check is needed at this level). -/
def txBucket (s : Store) (name : List Nat) : Option Node :=
  match s.find? (fun e => e.1 == name) with
  | some e => some e.2
  | none => none

/-- `b.Bucket(name)`: a child bucket handle, `none` when the key is absent or
holds a plain value. -/
def childBucket (b : Node) (name : List Nat) : Option Node :=
  match b with
  | .leaf _ => none
  | .bucket entries =>
    match entries.find? (fun e => e.1 == name) with
    | some (_, .bucket cs) => some (.bucket cs)
    | _ => none

/-- `b.Get(key)`: the value stored at `key`, `none` when the key is absent or
is a sub-bucket. -/
def bucketGet (b : Node) (key : List Nat) : Option (List Nat) :=
  match b with
  | .leaf _ => none
  | .bucket entries =>
    match entries.find? (fun e => e.1 == key) with
    | some (_, .leaf v) => some v
    | _ => none

/-! ### Path splitting (`strings.Trim`, `strings.Split`, `strings.Join` on "/") -/

/-- The byte value of the path separator. -/
def slash : Nat := 47

/-- `strings.Split(p, "/")`: split on every `/` byte; `n` separators yield
`n+1` (possibly empty) segments. -/
def split47 : List Nat → List (List Nat)
  | [] => [[]]
  | b :: bs =>
    if b = slash then [] :: split47 bs
    else
      match split47 bs with
      | s :: ss => (b :: s) :: ss
      | [] => [[b]]

/-- `strings.Join(parts, "/")`. -/
def joinSlash : List (List Nat) → List Nat
  | [] => []
  | [s] => s
  | s :: rest => s ++ slash :: joinSlash rest

/-- `strings.Trim(p, "/")`: drop leading and trailing `/` bytes. -/
def trim47 (p : List Nat) : List Nat :=
  ((p.dropWhile (fun b => b == slash)).reverse.dropWhile (fun b => b == slash)).reverse

/-! ### findBucket (src/main.go:1576-1651) -/

/-- The right-to-left contraction scan of `findBucket`: for `j` counting down
while `j > 1` (Go: `j > i+1`), test `strings.Join(parts[i:j], "/")`
(here `joinSlash (segs.take j)`) as a child bucket name; on a match return the
bucket together with the number of segments consumed. -/
def tryContr (b : Node) (segs : List (List Nat)) : Nat → Option (Node × Nat)
  | 0 => none
  | 1 => none
  | k + 2 =>
    match childBucket b (joinSlash (segs.take (k + 2))) with
    | some cand => some (cand, k + 2)
    | none => tryContr b segs (k + 1)

theorem tryContr_two_le {b : Node} {segs : List (List Nat)} {k j : Nat} {c : Node}
    (h : tryContr b segs k = some (c, j)) : 2 ≤ j := by
  induction k with
  | zero => simp [tryContr] at h
  | succ n ih =>
    match n, h with
    | 0, h => simp [tryContr] at h
    | m + 1, h =>
      rw [tryContr] at h
      revert h
      cases childBucket b (joinSlash (segs.take (m + 2))) with
      | none => intro h; exact ih h
      | some cand => intro h; simp at h; omega

/-- The per-level loop of `findBucket` (src/main.go:1604-1648), starting from
the bucket found for the first segment: exact child match first, then the
full remainder as one literal name, then the longest right-to-left
contraction; on a contraction match the joined segments are consumed and the
loop continues. -/
def resolveLoop (b : Node) : List (List Nat) → Option Node
  | [] => some b
  | name :: rest =>
    match childBucket b name with
    | some next => resolveLoop next rest
    | none =>
      match childBucket b (joinSlash (name :: rest)) with
      | some t => some t
      | none =>
        match h : tryContr b (name :: rest) (name :: rest).length with
        | some (cand, j) => resolveLoop cand ((name :: rest).drop j)
        | none => none
termination_by segs => segs.length
decreasing_by
  · simp
  · have h2 := tryContr_two_le h
    simp [List.length_drop]
    omega

/-- `findBucket` after normalization: look up the first segment as a
top-level bucket, then run the per-level loop on the remaining segments. -/
def findBucketParts (s : Store) : List (List Nat) → Option Node
  | [] => none
  | first :: rest =>
    match txBucket s first with
    | none => none
    | some b => resolveLoop b rest

/-- `findBucket` (src/main.go:1576-1651): trim slashes, reject an empty path,
split on `/`, drop empty segments, then resolve. -/
def findBucket (s : Store) (path : List Nat) : Option Node :=
  let p := trim47 path
  if p = [] then none
  else
    let parts := (split47 p).filter (fun x => x != [])
    if parts = [] then none
    else findBucketParts s parts


/-! ### isUTF8 (src/main.go:1694-1708) -/

/-- Is `c` a UTF-8 continuation byte (0x80..0xBF)? -/
def contByte (c : Nat) : Bool := 128 ≤ c && c ≤ 191

/-- `utf8.ValidString` on the byte sequence: standard UTF-8 validity,
rejecting overlong forms, surrogates and code points above U+10FFFF
(the ranges of Go's unicode/utf8 accept tables). -/
def validUtf8 : List Nat → Bool
  | [] => true
  | b :: rest =>
    if b < 128 then validUtf8 rest
    else if b < 194 then false
    else if b ≤ 223 then
      match rest with
      | c1 :: r => contByte c1 && validUtf8 r
      | [] => false
    else if b ≤ 239 then
      match rest with
      | c1 :: c2 :: r =>
        (if b = 224 then decide (160 ≤ c1) && decide (c1 ≤ 191)
         else if b = 237 then decide (128 ≤ c1) && decide (c1 ≤ 159)
         else contByte c1) && contByte c2 && validUtf8 r
      | _ => false
    else if b ≤ 244 then
      match rest with
      | c1 :: c2 :: c3 :: r =>
        (if b = 240 then decide (144 ≤ c1) && decide (c1 ≤ 191)
         else if b = 244 then decide (128 ≤ c1) && decide (c1 ≤ 143)
         else contByte c1) && contByte c2 && contByte c3 && validUtf8 r
      | _ => false
    else false

/-- `isUTF8` (src/main.go:1694-1708): false for empty data, for data longer
than 1 MiB, for data containing a NUL byte, and for invalid UTF-8. -/
def isUTF8 (data : List Nat) : Bool :=
  if data.length = 0 || data.length > 1048576 then false
  else if data.any (fun b => b == 0) then false
  else validUtf8 data

/-! ### JSON model (`encoding/json` as used by parseKeyValue)

`json.Unmarshal` into an untyped value, and `json.MarshalIndent(v, "", "  ")`.
Numbers are kept as their lexeme: Go round-trips them through float64 and
re-serializes a canonical form, which this model does not reproduce; no
theorem below depends on number re-serialization.  Object fields are
canonicalized at parse time (duplicate keys: last one wins, then sorted by
byte order), matching the observable map-then-sorted-marshal behaviour of
encoding/json.  String contents keep their raw bytes where Go substitutes
U+FFFD for invalid UTF-8; no theorem depends on that substitution. -/

inductive Json where
  | null
  | bool (b : Bool)
  | num (lexeme : List Nat)
  | str (s : List Nat)
  | arr (elems : List Json)
  | obj (fields : List (List Nat × Json))

/-- JSON whitespace bytes: space, tab, newline, carriage return. -/
def isWs (b : Nat) : Bool := b == 32 || b == 9 || b == 10 || b == 13

def skipWs (l : List Nat) : List Nat := l.dropWhile isWs

/-- Value of an ASCII hex digit. -/
def hexVal (c : Nat) : Option Nat :=
  if 48 ≤ c ∧ c ≤ 57 then some (c - 48)
  else if 97 ≤ c ∧ c ≤ 102 then some (c - 87)
  else if 65 ≤ c ∧ c ≤ 70 then some (c - 55)
  else none

/-- UTF-8 encoding of a code point (used for decoded escape sequences). -/
def utf8Encode (cp : Nat) : List Nat :=
  if cp < 128 then [cp]
  else if cp < 2048 then [192 + cp / 64, 128 + cp % 64]
  else if cp < 65536 then [224 + cp / 4096, 128 + cp / 64 % 64, 128 + cp % 64]
  else [240 + cp / 262144, 128 + cp / 4096 % 64, 128 + cp / 64 % 64, 128 + cp % 64]

/-- One `\\uXXXX` escape (the `u` already consumed): the decoded UTF-8
bytes and the number of input bytes consumed.  A high surrogate followed by
a `\\uYYYY` low surrogate consumes both (10 bytes); an unpaired surrogate
decodes to U+FFFD and consumes only its own four hex digits, as in Go's
`unquoteBytes` (the following escape is then re-read by the main loop). -/
def parseUEscape (l : List Nat) : Option (List Nat × Nat) :=
  match l with
  | h1 :: h2 :: h3 :: h4 :: rest3 =>
    match hexVal h1, hexVal h2, hexVal h3, hexVal h4 with
    | some v1, some v2, some v3, some v4 =>
      let cp := ((v1 * 16 + v2) * 16 + v3) * 16 + v4
      if 55296 ≤ cp ∧ cp ≤ 56319 then
        match rest3 with
        | 92 :: 117 :: g1 :: g2 :: g3 :: g4 :: _ =>
          match hexVal g1, hexVal g2, hexVal g3, hexVal g4 with
          | some w1, some w2, some w3, some w4 =>
            let cp2 := ((w1 * 16 + w2) * 16 + w3) * 16 + w4
            if 56320 ≤ cp2 ∧ cp2 ≤ 57343 then
              some (utf8Encode (65536 + (cp - 55296) * 1024 + (cp2 - 56320)), 10)
            else some (utf8Encode 65533, 4)
          | _, _, _, _ => some (utf8Encode 65533, 4)
        | _ => some (utf8Encode 65533, 4)
      else if 56320 ≤ cp ∧ cp ≤ 57343 then some (utf8Encode 65533, 4)
      else some (utf8Encode cp, 4)
    | _, _, _, _ => none
  | _ => none

/-- Parse a JSON string body after the opening quote, returning the decoded
content and the rest of the input after the closing quote.  Mirrors Go's
scanner (raw bytes at or above 0x20 except quote and backslash; the named
escapes; `\\uXXXX` through `parseUEscape`). -/
def parseStringBody : List Nat → Option (List Nat × List Nat)
  | [] => none
  | c :: rest =>
    if c = 34 then some ([], rest)
    else if c = 92 then
      match rest with
      | [] => none
      | e :: rest2 =>
        if e = 34 || e = 92 || e = 47 then
          (parseStringBody rest2).map (fun p => (e :: p.1, p.2))
        else if e = 98 then (parseStringBody rest2).map (fun p => (8 :: p.1, p.2))
        else if e = 102 then (parseStringBody rest2).map (fun p => (12 :: p.1, p.2))
        else if e = 110 then (parseStringBody rest2).map (fun p => (10 :: p.1, p.2))
        else if e = 114 then (parseStringBody rest2).map (fun p => (13 :: p.1, p.2))
        else if e = 116 then (parseStringBody rest2).map (fun p => (9 :: p.1, p.2))
        else if e = 117 then
          match parseUEscape rest2 with
          | some (enc, k) => (parseStringBody (rest2.drop k)).map (fun p => (enc ++ p.1, p.2))
          | none => none
        else none
    else if c < 32 then none
    else (parseStringBody rest).map (fun p => (c :: p.1, p.2))
termination_by l => l.length
decreasing_by
  all_goals simp
  all_goals omega

def isDigit (c : Nat) : Bool := 48 ≤ c && c ≤ 57

/-- Exponent part of a JSON number (optional). -/
def parseExpPart (lex : List Nat) (rest : List Nat) : Option (List Nat × List Nat) :=
  match rest with
  | e :: r1 =>
    if e = 101 || e = 69 then
      let sr : List Nat × List Nat := match r1 with
        | a :: r => if a = 43 || a = 45 then ([a], r) else ([], a :: r)
        | [] => ([], [])
      let ds := sr.2.takeWhile isDigit
      if ds = [] then none
      else some (lex ++ e :: sr.1 ++ ds, sr.2.dropWhile isDigit)
    else some (lex, rest)
  | [] => some (lex, rest)

/-- Fraction part of a JSON number (optional), then exponent. -/
def parseFracPart (lex : List Nat) (rest : List Nat) : Option (List Nat × List Nat) :=
  match rest with
  | a :: r1 =>
    if a = 46 then
      let ds := r1.takeWhile isDigit
      if ds = [] then none
      else parseExpPart (lex ++ 46 :: ds) (r1.dropWhile isDigit)
    else parseExpPart lex (a :: r1)
  | [] => parseExpPart lex []

/-- A JSON number per the grammar Go's scanner accepts:
`-? (0 | [1-9][0-9]*) frac? exp?`.  Returns the lexeme and the rest. -/
def parseNumber (input : List Nat) : Option (List Nat × List Nat) :=
  let mr : List Nat × List Nat := match input with
    | a :: r => if a = 45 then ([45], r) else ([], a :: r)
    | [] => ([], [])
  match mr.2 with
  | [] => none
  | c :: r2 =>
    if c = 48 then parseFracPart (mr.1 ++ [48]) r2
    else if 49 ≤ c ∧ c ≤ 57 then
      let ds := r2.takeWhile isDigit
      parseFracPart (mr.1 ++ c :: ds) (r2.dropWhile isDigit)
    else none

/-- Duplicate object keys: the later entry wins (Go decodes into a map). -/
def dedupFields (fs : List (List Nat × Json)) : List (List Nat × Json) :=
  fs.foldl (fun acc f => (acc.filter (fun g => g.1 != f.1)) ++ [f]) []

/-- Byte-wise lexicographic order on keys (Go sorts map keys on marshal). -/
def lexLtBytes : List Nat → List Nat → Bool
  | [], [] => false
  | [], _ :: _ => true
  | _ :: _, [] => false
  | a :: as, b :: bs => if a < b then true else if b < a then false else lexLtBytes as bs

def insertField (f : List Nat × Json) : List (List Nat × Json) → List (List Nat × Json)
  | [] => [f]
  | g :: gs => if lexLtBytes f.1 g.1 then f :: g :: gs else g :: insertField f gs

def sortFields (fs : List (List Nat × Json)) : List (List Nat × Json) :=
  fs.foldr insertField []

mutual

/-- One JSON value, fuel-bounded.  The fuel only limits nesting bookkeeping:
`jsonUnmarshal` passes `2 * length + 2`, which is at least two units per
consumed byte, enough for every input. -/
def parseValue : Nat → List Nat → Option (Json × List Nat)
  | 0, _ => none
  | fuel + 1, input =>
    match skipWs input with
    | [] => none
    | c :: rest =>
      if c = 34 then
        (parseStringBody rest).map (fun p => (Json.str p.1, p.2))
      else if c = 91 then
        match skipWs rest with
        | a :: r2 => if a = 93 then some (Json.arr [], r2) else parseElems fuel (a :: r2) []
        | [] => parseElems fuel [] []
      else if c = 123 then
        match skipWs rest with
        | a :: r2 => if a = 125 then some (Json.obj [], r2) else parseFields fuel (a :: r2) []
        | [] => parseFields fuel [] []
      else if c = 116 then
        match rest with
        | a1 :: a2 :: a3 :: r =>
          if a1 = 114 ∧ a2 = 117 ∧ a3 = 101 then some (Json.bool true, r) else none
        | _ => none
      else if c = 102 then
        match rest with
        | a1 :: a2 :: a3 :: a4 :: r =>
          if a1 = 97 ∧ a2 = 108 ∧ a3 = 115 ∧ a4 = 101 then some (Json.bool false, r) else none
        | _ => none
      else if c = 110 then
        match rest with
        | a1 :: a2 :: a3 :: r =>
          if a1 = 117 ∧ a2 = 108 ∧ a3 = 108 then some (Json.null, r) else none
        | _ => none
      else
        (parseNumber (c :: rest)).map (fun p => (Json.num p.1, p.2))

/-- Array elements after the first `[` (nonempty case). -/
def parseElems : Nat → List Nat → List Json → Option (Json × List Nat)
  | 0, _, _ => none
  | fuel + 1, input, acc =>
    match parseValue fuel input with
    | none => none
    | some (j, rest) =>
      match skipWs rest with
      | a :: r2 =>
        if a = 44 then parseElems fuel r2 (acc ++ [j])
        else if a = 93 then some (Json.arr (acc ++ [j]), r2)
        else none
      | [] => none

/-- Object members after the first `{` (nonempty case). -/
def parseFields : Nat → List Nat → List (List Nat × Json) → Option (Json × List Nat)
  | 0, _, _ => none
  | fuel + 1, input, acc =>
    match skipWs input with
    | q :: r1 =>
      if q = 34 then
        match parseStringBody r1 with
        | none => none
        | some (key, r2) =>
          match skipWs r2 with
          | col :: r3 =>
            if col = 58 then
              match parseValue fuel r3 with
              | none => none
              | some (j, r4) =>
                match skipWs r4 with
                | a :: r5 =>
                  if a = 44 then parseFields fuel r5 (acc ++ [(key, j)])
                  else if a = 125 then
                    some (Json.obj (sortFields (dedupFields (acc ++ [(key, j)]))), r5)
                  else none
                | [] => none
            else none
          | [] => none
      else none
    | [] => none

end

/-- `json.Unmarshal(value, &v)`: exactly one JSON document, with optional
surrounding whitespace; anything else (including trailing data) fails. -/
def jsonUnmarshal (v : List Nat) : Option Json :=
  match parseValue (2 * v.length + 2) v with
  | some (j, rest) => if skipWs rest = [] then some j else none
  | none => none

/-! ### json.MarshalIndent(v, "", "  ") -/

/-- Lowercase hex digit byte. -/
def hexDigit (n : Nat) : Nat := if n < 10 then 48 + n else 87 + n

/-- Escaping of one string byte as in encoding/json with HTML escaping on
(the `json.Marshal` default): quote, backslash, `\n` `\r` `\t`, other control
bytes as `\u00xx`, and `<` `>` `&` as `<` `>` `&`.  Go also
replaces invalid UTF-8 with U+FFFD and escapes U+2028/U+2029; this byte-wise
model passes those through, and no theorem depends on them. -/
def escapeByte (b : Nat) : List Nat :=
  if b = 34 then [92, 34]
  else if b = 92 then [92, 92]
  else if b = 10 then [92, 110]
  else if b = 13 then [92, 114]
  else if b = 9 then [92, 116]
  else if b < 32 || b = 60 || b = 62 || b = 38 then
    [92, 117, 48, 48, hexDigit (b / 16), hexDigit (b % 16)]
  else [b]

def escapeString (s : List Nat) : List Nat :=
  34 :: (s.map escapeByte).flatten ++ [34]

def joinBytes (sep : List Nat) : List (List Nat) → List Nat
  | [] => []
  | [x] => x
  | x :: xs => x ++ sep ++ joinBytes sep xs

/-- Two-space indentation at the given depth. -/
def indentBytes (depth : Nat) : List Nat := List.replicate (2 * depth) 32

/-- `json.MarshalIndent(v, "", "  ")` at a given depth: scalars inline,
nonempty arrays and objects one element per line (object fields are already
canonically ordered by the parser, as Go's map marshalling sorts keys). -/
def marshalValue : Json → Nat → List Nat
  | .null, _ => str2bytes "null"
  | .bool true, _ => str2bytes "true"
  | .bool false, _ => str2bytes "false"
  | .num lex, _ => lex
  | .str s, _ => escapeString s
  | .arr [], _ => str2bytes "[]"
  | .arr (x :: xs), d =>
    let items := (x :: xs).attach.map (fun ⟨a, ha⟩ =>
      indentBytes (d + 1) ++ marshalValue a (d + 1))
    [91, 10] ++ joinBytes [44, 10] items ++ [10] ++ indentBytes d ++ [93]
  | .obj [], _ => str2bytes "{}"
  | .obj (f :: fs), d =>
    let items := (f :: fs).attach.map (fun ⟨a, ha⟩ =>
      indentBytes (d + 1) ++ escapeString a.1 ++ [58, 32] ++ marshalValue a.2 (d + 1))
    [123, 10] ++ joinBytes [44, 10] items ++ [10] ++ indentBytes d ++ [125]
termination_by j _ => sizeOf j
decreasing_by
  · have h1 := List.sizeOf_lt_of_mem ha
    simp at h1 ⊢
    omega
  · have h1 := List.sizeOf_lt_of_mem ha
    obtain ⟨k, v⟩ := a
    simp at h1 ⊢
    omega

/-- The indented re-serialization used for JSON previews. -/
def marshalIndent (j : Json) : List Nat := marshalValue j 0

/-! ### Hex dump (formatBinaryPreview, src/main.go:1711-1753, and the
unbounded variant inlined in getFullKeyData, src/main.go:1850-1872) -/

/-- Decimal digits of a natural number (ASCII), as `fmt.Sprintf("%d")`.
The first argument is structural fuel; `n` units always suffice since the
value shrinks by a factor of ten per digit. -/
def natToDecAux : Nat → Nat → List Nat
  | 0, _ => []
  | _, 0 => []
  | fuel + 1, n + 1 => natToDecAux fuel ((n + 1) / 10) ++ [48 + (n + 1) % 10]

def natToDec (n : Nat) : List Nat := if n = 0 then [48] else natToDecAux n n

/-- `fmt.Sprintf("%02x", b)` for a byte. -/
def hexByte (b : Nat) : List Nat := [hexDigit (b / 16 % 16), hexDigit (b % 16)]

/-- Hex digits of a natural number without leading zeros (fuel-structural,
`n` units always suffice). -/
def hexDigitsAux : Nat → Nat → List Nat
  | 0, _ => []
  | _, 0 => []
  | fuel + 1, n + 1 => hexDigitsAux fuel ((n + 1) / 16) ++ [hexDigit ((n + 1) % 16)]

/-- `fmt.Sprintf("%04x", n)`: at least four hex digits, zero-padded. -/
def hex4 (n : Nat) : List Nat :=
  let ds := if n = 0 then [48] else hexDigitsAux n n
  List.replicate (4 - ds.length) 48 ++ ds

/-- One dump record: `%04x: %s |%s|\n` with the hex column built from
`%02x ` per byte and space-padded to width 48, and the ASCII column showing
printable bytes (0x20..0x7E) or a dot. -/
def dumpLine (off : Nat) (chunk : List Nat) : List Nat :=
  let hx := (chunk.map (fun b => hexByte b ++ [32])).flatten
  let hxPadded := hx ++ List.replicate (48 - hx.length) 32
  let ascii := chunk.map (fun b => if 32 ≤ b && b ≤ 126 then b else 46)
  hex4 off ++ [58, 32] ++ hxPadded ++ [32, 124] ++ ascii ++ [124, 10]

/-- The 16-bytes-per-record loop of the hex dump. -/
def hexLines (off : Nat) (bs : List Nat) : List (List Nat) :=
  match bs with
  | [] => []
  | b :: rest => dumpLine off ((b :: rest).take 16) :: hexLines (off + 16) ((b :: rest).drop 16)
termination_by bs.length
decreasing_by simp; omega

def hexHeader : List Nat := str2bytes "Hexadecimal preview:\n"

/-- `formatBinaryPreview` (src/main.go:1711-1753): "(empty data)" for empty
input, else a dump of at most 256 bytes followed, when bytes were omitted,
by a `... N more bytes` marker. -/
def formatBinaryPreview (data : List Nat) : List Nat :=
  if data = [] then str2bytes "(empty data)"
  else
    let maxBytes := if data.length < 256 then data.length else 256
    hexHeader ++ (hexLines 0 (data.take maxBytes)).flatten ++
      (if data.length > maxBytes then
        str2bytes "... " ++ natToDec (data.length - maxBytes) ++ str2bytes " more bytes"
       else [])

/-- The unbounded dump inlined in getFullKeyData (src/main.go:1850-1872):
every byte, no omission marker. -/
def fullHexPreview (value : List Nat) : List Nat :=
  hexHeader ++ (hexLines 0 value).flatten

/-! ### parseKeyValue (src/main.go:1654-1691) and the detail variants -/

/-- The dynamic `interface{}` stored in KeyValuePair.Value: either a decoded
JSON document or a Go string. -/
inductive GoValue where
  | json (j : Json)
  | str (s : List Nat)

structure KeyValuePair where
  Key : List Nat
  Value : GoValue
  ValueType : List Nat
  ValueSize : Nat
  IsJSON : Bool
  IsBinary : Bool
  Preview : List Nat

/-- `fmt.Sprintf("<%d bytes binary data>", n)`. -/
def binaryPlaceholder (n : Nat) : List Nat :=
  str2bytes "<" ++ natToDec n ++ str2bytes " bytes binary data>"

/-- The `\n... (truncated)` marker appended to bounded previews. -/
def truncMarker : List Nat := str2bytes "\n... (truncated)"

/-- `parseKeyValue` (src/main.go:1654-1691).  `IsBinary` is set up front from
`isUTF8`; then JSON wins over the binary/string split, with a preview
truncated to 1000 bytes.  (The MarshalIndent error fallback in the source is
unreachable for values produced by Unmarshal and is not modelled.) -/
def parseKeyValue (key value : List Nat) : KeyValuePair :=
  let isBin := !isUTF8 value
  match jsonUnmarshal value with
  | some j =>
    let formatted := marshalIndent j
    let preview := if formatted.length > 1000 then formatted.take 1000 ++ truncMarker else formatted
    { Key := key, Value := GoValue.json j, ValueType := str2bytes "JSON",
      ValueSize := value.length, IsJSON := true, IsBinary := isBin, Preview := preview }
  | none =>
    if isBin then
      { Key := key, Value := GoValue.str (binaryPlaceholder value.length),
        ValueType := str2bytes "Binary", ValueSize := value.length,
        IsJSON := false, IsBinary := isBin, Preview := formatBinaryPreview value }
    else
      let preview := if value.length > 1000 then value.take 1000 ++ truncMarker else value
      { Key := key, Value := GoValue.str value, ValueType := str2bytes "String",
        ValueSize := value.length, IsJSON := false, IsBinary := isBin, Preview := preview }

/-- The classification inlined in `getKeyDetails` (src/main.go:1776-1801):
like `parseKeyValue` but with untruncated JSON and string previews (the
binary branch still uses the bounded `formatBinaryPreview`). -/
def getKeyDetailsKV (key value : List Nat) : KeyValuePair :=
  let isBin := !isUTF8 value
  match jsonUnmarshal value with
  | some j =>
    { Key := key, Value := GoValue.json j, ValueType := str2bytes "JSON",
      ValueSize := value.length, IsJSON := true, IsBinary := isBin, Preview := marshalIndent j }
  | none =>
    if isBin then
      { Key := key, Value := GoValue.str (binaryPlaceholder value.length),
        ValueType := str2bytes "Binary", ValueSize := value.length,
        IsJSON := false, IsBinary := isBin, Preview := formatBinaryPreview value }
    else
      { Key := key, Value := GoValue.str value, ValueType := str2bytes "String",
        ValueSize := value.length, IsJSON := false, IsBinary := isBin, Preview := value }

/-- The classification inlined in `getFullKeyData` (src/main.go:1831-1877):
like `getKeyDetailsKV` but the binary preview is the unbounded dump. -/
def getFullKeyDataKV (key value : List Nat) : KeyValuePair :=
  let isBin := !isUTF8 value
  match jsonUnmarshal value with
  | some j =>
    { Key := key, Value := GoValue.json j, ValueType := str2bytes "JSON",
      ValueSize := value.length, IsJSON := true, IsBinary := isBin, Preview := marshalIndent j }
  | none =>
    if isBin then
      { Key := key, Value := GoValue.str (binaryPlaceholder value.length),
        ValueType := str2bytes "Binary", ValueSize := value.length,
        IsJSON := false, IsBinary := isBin, Preview := fullHexPreview value }
    else
      { Key := key, Value := GoValue.str value, ValueType := str2bytes "String",
        ValueSize := value.length, IsJSON := false, IsBinary := isBin, Preview := value }

/-- `getKeyDetails` (src/main.go:1756-1808) inside the view: resolve the
bucket, fetch the value, classify. -/
def getKeyDetails (s : Store) (path key : List Nat) : Option KeyValuePair :=
  match findBucket s path with
  | none => none
  | some b => (bucketGet b key).map (getKeyDetailsKV key)

/-- `getFullKeyData` (src/main.go:1810-1884) inside the view. -/
def getFullKeyData (s : Store) (path key : List Nat) : Option KeyValuePair :=
  match findBucket s path with
  | none => none
  | some b => (bucketGet b key).map (getFullKeyDataKV key)

/-! ### searchKeys / searchInBucket (src/main.go:1887-1949) -/

/-- One entry of the search result list (the Go handler builds a map with
exactly these fields; `vtype` is the "type" field). -/
structure SearchResult where
  bucket : List Nat
  key : List Nat
  path : List Nat
  vtype : List Nat
  size : Nat
  preview : List Nat

/-- ASCII lowering of one byte.  `strings.ToLower` is Unicode-aware; the
ASCII case is all the search theorems below exercise. -/
def toLowerByte (b : Nat) : Nat := if 65 ≤ b && b ≤ 90 then b + 32 else b

def toLowerBytes (s : List Nat) : List Nat := s.map toLowerByte

/-- `strings.Contains(s, sub)`. -/
def containsSub (s sub : List Nat) : Bool :=
  (List.range (s.length + 1)).any (fun i => (s.drop i).take sub.length == sub)

/-- The result entry built for a matching key (src/main.go:1927-1940),
including the 200-byte preview cut. -/
def mkSearchResult (path keyName currentPath k v : List Nat) : SearchResult :=
  let kv := parseKeyValue k v
  let preview := if kv.Preview.length > 200 then kv.Preview.take 200 ++ str2bytes "..." else kv.Preview
  { bucket := path, key := keyName, path := currentPath, vtype := kv.ValueType,
    size := kv.ValueSize, preview := preview }

/-- The body of `searchInBucket` (src/main.go:1907-1949): iterate the
bucket's entries; descend into a sub-bucket only when the shared result list
is still below the cap (the recursive call's entry guard); append a result
for every matching key/value pair.  The `if len(*results) >= maxResults
{ return nil }` after an append returns nil from the ForEach callback, which
continues the iteration, so it has no effect and is not modelled. -/
def searchEntries (entries : List (List Nat × Node)) (path query : List Nat)
    (results : List SearchResult) (maxResults : Nat) : List SearchResult :=
  match entries with
  | [] => results
  | (k, node) :: rest =>
    let currentPath := (if path = [] then [] else path ++ [slash]) ++ k
    match node with
    | Node.bucket sub =>
      let r1 := if results.length ≥ maxResults then results
                else searchEntries sub currentPath query results maxResults
      searchEntries rest path query r1 maxResults
    | Node.leaf v =>
      let r1 := if containsSub (toLowerBytes k) query then
                  results ++ [mkSearchResult path k currentPath k v]
                else results
      searchEntries rest path query r1 maxResults
termination_by sizeOf entries

/-- `searchKeys` (src/main.go:1887-1904): lower the query, then walk every
top-level bucket through `searchInBucket` with the shared 100-result cap
(the entry guard of `searchInBucket` is the `results.length ≥ 100` check).
The bolt root only yields buckets, so the leaf case is unreachable. -/
def searchKeys (s : Store) (query : List Nat) : List SearchResult :=
  let q := toLowerBytes query
  s.foldl (fun results e =>
    if results.length ≥ 100 then results
    else
      match e.2 with
      | Node.bucket entries => searchEntries entries e.1 q results 100
      | Node.leaf _ => results) []

/-! ### handleDecodeTime (src/main.go:1357-1370) and time.Time.UnmarshalBinary -/

/-- The decoded fields of Go's binary time encoding: seconds since January 1
of year 1 (Go's internal epoch), nanoseconds, and the zone offset in seconds
(`-60` is the marker MarshalBinary writes for UTC). -/
structure TimeRec where
  sec : Int
  nsec : Int
  offsetSec : Int

/-- Big-endian value of a byte list. -/
def beNat (bs : List Nat) : Nat := bs.foldl (fun a b => a * 256 + b) 0

/-- Two's-complement reading at the given width. -/
def toSigned (w : Nat) (n : Nat) : Int :=
  if n < 2 ^ (w - 1) then (n : Int) else (n : Int) - 2 ^ w

/-- `time.Time.UnmarshalBinary`: a version byte (1 or 2), 8 bytes of
big-endian seconds, 4 bytes of nanoseconds, 2 bytes of zone-offset minutes,
and for version 2 one extra byte of zone-offset seconds; any other length
(15 bytes for v1, 16 for v2) or version fails.  (Which `Location` the zone
offset is attached to does not change the decoded instant; only the UTC
marker `-1` minute is distinguished, as in the source.) -/
def timeUnmarshalBinary (data : List Nat) : Option TimeRec :=
  match data with
  | [] => none
  | version :: buf =>
    if version ≠ 1 ∧ version ≠ 2 then none
    else
      let wantLen := if version = 2 then 16 else 15
      if data.length ≠ wantLen then none
      else
        let sec := toSigned 64 (beNat (buf.take 8))
        let nsec := toSigned 32 (beNat ((buf.drop 8).take 4))
        let offMin := toSigned 16 (beNat ((buf.drop 12).take 2))
        let off := offMin * 60 + (if version = 2 then (((buf.drop 14).headD 0 : Nat) : Int) else 0)
        some { sec := sec, nsec := nsec, offsetSec := off }

/-- Seconds between Go's internal epoch (Jan 1, year 1) and the Unix epoch. -/
def unixToInternal : Int := 62135596800

/-- `t.Unix()`. -/
def unixOf (r : TimeRec) : Int := r.sec - unixToInternal

/-- Proleptic-Gregorian date from days since 1970-01-01 (the standard civil
calendar computation; Go's absolute-date computation agrees with it). -/
def civilFromDays (z0 : Int) : Int × Int × Int :=
  let z := z0 + 719468
  let era := (if z ≥ 0 then z else z - 146096) / 146097
  let doe := z - era * 146097
  let yoe := (doe - doe / 1460 + doe / 36524 - doe / 146096) / 365
  let y := yoe + era * 400
  let doy := doe - (365 * yoe + yoe / 4 - yoe / 100)
  let mp := (5 * doy + 2) / 153
  let d := doy - (153 * mp + 2) / 5 + 1
  let m := mp + (if mp < 10 then 3 else (-9 : Int))
  ((if m ≤ 2 then y + 1 else y), m, d)

/-- Zero-padded two-digit decimal. -/
def pad2 (n : Nat) : List Nat := if n < 10 then [48, 48 + n] else natToDec n

/-- Zero-padded four-digit decimal (Go layout `2006`). -/
def pad4 (n : Nat) : List Nat :=
  let ds := natToDec n
  List.replicate (4 - ds.length) 48 ++ ds

/-- Numeric zone rendering `±hhmm` (what Go's `MST` layout verb falls back
to when the zone has no abbreviation). -/
def numericZone (off : Int) : List Nat :=
  let sign : List Nat := if off < 0 then [45] else [43]
  let a := off.natAbs
  sign ++ pad2 (a / 3600) ++ pad2 (a % 3600 / 60)

/-- Numeric zone rendering `±hh:mm` (the RFC3339 `Z07:00` verb for a
non-UTC zone). -/
def numericZoneColon (off : Int) : List Nat :=
  let sign : List Nat := if off < 0 then [45] else [43]
  let a := off.natAbs
  sign ++ pad2 (a / 3600) ++ [58] ++ pad2 (a % 3600 / 60)

/-- The calendar fields of the decoded instant displayed in its zone. -/
def timeFields (r : TimeRec) : (Int × Int × Int) × (Nat × Nat × Nat) :=
  let isUTC := r.offsetSec = -60
  let disp : Int := if isUTC then 0 else r.offsetSec
  let locsec := unixOf r + disp
  let days := locsec.ediv 86400
  let sod := (locsec.emod 86400).toNat
  (civilFromDays days, (sod / 3600, sod / 60 % 60, sod % 60))

/-- `t.Format("2006-01-02 15:04:05 MST")`. -/
def formatLayout1 (r : TimeRec) : List Nat :=
  let f := timeFields r
  let isUTC := r.offsetSec = -60
  pad4 f.1.1.natAbs ++ [45] ++ pad2 f.1.2.1.natAbs ++ [45] ++ pad2 f.1.2.2.natAbs ++ [32] ++
  pad2 f.2.1 ++ [58] ++ pad2 f.2.2.1 ++ [58] ++ pad2 f.2.2.2 ++ [32] ++
  (if isUTC then str2bytes "UTC" else numericZone r.offsetSec)

/-- `t.Format(time.RFC3339)` (no sub-second part when nsec rendering is
zero-truncated, as RFC3339's layout has no fraction verb). -/
def formatRFC3339 (r : TimeRec) : List Nat :=
  let f := timeFields r
  let isUTC := r.offsetSec = -60
  pad4 f.1.1.natAbs ++ [45] ++ pad2 f.1.2.1.natAbs ++ [45] ++ pad2 f.1.2.2.natAbs ++ [84] ++
  pad2 f.2.1 ++ [58] ++ pad2 f.2.2.1 ++ [58] ++ pad2 f.2.2.2 ++
  (if isUTC then [90] else numericZoneColon r.offsetSec)

/-- The result object of `handleDecodeTime` (src/main.go:1366-1370). -/
structure DecodeTimeResult where
  decodedTime : List Nat
  timestamp : Int
  iso : List Nat

/-- `handleDecodeTime`'s decode step (src/main.go:1357-1370): decode the
value with `time.Time.UnmarshalBinary` (failure is surfaced as an error) and
build the three views of the one decoded instant. -/
def decodeTime (value : List Nat) : Option DecodeTimeResult :=
  match timeUnmarshalBinary value with
  | none => none
  | some r =>
    some { decodedTime := formatLayout1 r, timestamp := unixOf r, iso := formatRFC3339 r }

/-! ## Claim theorems -/

/-- Claim C6: for the empty byte sequence, classification reports kind
Binary (the zero-length rule of `isUTF8`), the decoded value is the
placeholder string `<0 bytes binary data>` stating the byte length, and the
preview is the fixed `(empty data)` marker. -/
theorem c6_empty_classified_binary : ∀ key : List Nat,
    parseKeyValue key [] =
      { Key := key, Value := GoValue.str (binaryPlaceholder 0),
        ValueType := str2bytes "Binary", ValueSize := 0, IsJSON := false,
        IsBinary := true, Preview := str2bytes "(empty data)" } :=
  fun _ => rfl

/-- Claim C1, counterexample: with a single top-level bucket literally named
`x/y`, resolving the path string `x/y` does NOT succeed: `findBucket` looks
up the first naive segment `x` directly at the top level, where no
contraction fallback exists, and returns nil. -/
theorem c1_top_level_slash_name_fails :
    findBucket [(str2bytes "x/y", Node.bucket [])] (str2bytes "x/y") = none := rfl

/-- Claim C1, amended: the single-contraction (full-remainder) fallback only
exists below the top level.  If some top-level bucket `A` resolves and its
child level has no bucket `x` but does have a bucket literally named `x/y`,
then the path `A/x/y` resolves to that bucket via the fallback. -/
theorem c1_sub_level_slash_name_resolves (s : Store) (a t : Node)
    (hA : txBucket s (str2bytes "A") = some a)
    (hx : childBucket a (str2bytes "x") = none)
    (hxy : childBucket a (str2bytes "x/y") = some t) :
    findBucket s (str2bytes "A/x/y") = some t := by
  rw [show str2bytes "A" = [65] from rfl] at hA
  rw [show str2bytes "x" = [120] from rfl] at hx
  rw [show str2bytes "x/y" = [120, 47, 121] from rfl] at hxy
  rw [show findBucket s (str2bytes "A/x/y") = findBucketParts s [[65], [120], [121]] from rfl]
  simp only [findBucketParts]
  rw [hA]
  show resolveLoop a [[120], [121]] = some t
  rw [resolveLoop.eq_def]
  simp only [hx, show joinSlash [[120], [121]] = [120, 47, 121] from rfl, hxy]

/-- Witness for C1's amended theorem at a concrete store. -/
theorem c1_sub_level_witness :
    findBucket [([65], Node.bucket [([120, 47, 121], Node.bucket [([122], Node.leaf [1])])])]
      (str2bytes "A/x/y") = some (Node.bucket [([122], Node.leaf [1])]) :=
  c1_sub_level_slash_name_resolves _ _ _ rfl rfl rfl

/-- Claim C9: `decodeTime` (the decode step of handleDecodeTime, backed by
time.Time.UnmarshalBinary) fails on every input whose length is not that of
the fixed binary time encoding (15 bytes for version 1, 16 for version 2),
and on the version-1 encoding of the Unix epoch-zero instant it returns
unix seconds 0, with the formatted string, the unix seconds and the RFC3339
string all built from the one decoded instant. -/
theorem c9_decode_time :
    (∀ bs : List Nat, bs.length ≠ 15 → bs.length ≠ 16 → decodeTime bs = none)
    ∧ decodeTime [1, 0, 0, 0, 14, 119, 145, 247, 0, 0, 0, 0, 0, 255, 255] =
        some { decodedTime := str2bytes "1970-01-01 00:00:00 UTC", timestamp := 0,
               iso := str2bytes "1970-01-01T00:00:00Z" } := by
  constructor
  · intro bs h15 h16
    cases bs with
    | nil => rfl
    | cons version buf =>
      simp only [List.length_cons] at h15 h16
      have hb15 : buf.length ≠ 14 := by omega
      have hb16 : buf.length ≠ 15 := by omega
      by_cases hv : version ≠ 1 ∧ version ≠ 2
      · simp [decodeTime, timeUnmarshalBinary, hv]
      · by_cases h2 : version = 2
        · simp [decodeTime, timeUnmarshalBinary, hv, h2, hb16]
        · have h1 : version = 1 := by tauto
          simp [decodeTime, timeUnmarshalBinary, hv, h1, hb15]
  · rfl

/-- Witness for C9 at concrete wrong-length inputs. -/
theorem c9_decode_time_witness : decodeTime [7] = none ∧ decodeTime [] = none :=
  ⟨c9_decode_time.1 [7] (by decide) (by decide),
   c9_decode_time.1 [] (by decide) (by decide)⟩

/-! ### C7 lemmas: record counts and record widths of the hex dump -/

theorem hexLines_length_aux (n : Nat) : ∀ (bs : List Nat) (off : Nat), bs.length ≤ n →
    (hexLines off bs).length = (bs.length + 15) / 16 := by
  induction n with
  | zero =>
    intro bs off h
    have hbs : bs = [] := List.eq_nil_of_length_eq_zero (by omega)
    subst hbs
    rw [hexLines.eq_def]
    simp
  | succ m ih =>
    intro bs off h
    match bs with
    | [] => rw [hexLines.eq_def]; simp
    | b :: rest =>
      rw [hexLines.eq_def]
      simp only [List.length_cons]
      have hd : ((b :: rest).drop 16).length = rest.length + 1 - 16 := by
        simp [List.length_drop]
      rw [ih ((b :: rest).drop 16) (off + 16) (by simp at h ⊢; omega)]
      rw [hd]
      simp at h
      omega

theorem hexLines_length (off : Nat) (bs : List Nat) :
    (hexLines off bs).length = (bs.length + 15) / 16 :=
  hexLines_length_aux bs.length bs off le_rfl

theorem hexcol_length (chunk : List Nat) :
    ((chunk.map (fun b => hexByte b ++ [32])).flatten).length = 3 * chunk.length := by
  induction chunk with
  | nil => rfl
  | cons b rest ih => simp [hexByte] at ih ⊢; omega

theorem hexDigitsAux_length_le (f : Nat) : ∀ (n k : Nat), n < 16 ^ k →
    (hexDigitsAux f n).length ≤ k := by
  induction f with
  | zero => intro n k _; simp [hexDigitsAux]
  | succ g ih =>
    intro n k hn
    match n with
    | 0 => simp [hexDigitsAux]
    | m + 1 =>
      have hk : k ≠ 0 := by
        intro h0; rw [h0] at hn; simp at hn
      match k, hk with
      | k' + 1, _ =>
        rw [hexDigitsAux]
        have hdiv : (m + 1) / 16 < 16 ^ k' := by
          rw [Nat.div_lt_iff_lt_mul (by omega)]
          calc m + 1 < 16 ^ (k' + 1) := hn
          _ = 16 ^ k' * 16 := by ring
        have := ih ((m + 1) / 16) k' hdiv
        simp
        omega

theorem hex4_length (n : Nat) (h : n < 65536) : (hex4 n).length = 4 := by
  rw [hex4]
  by_cases h0 : n = 0
  · simp [h0]
  · have hle : (hexDigitsAux n n).length ≤ 4 :=
      hexDigitsAux_length_le n n 4 (by norm_num; omega)
    simp [h0]
    omega

theorem dumpLine_length (off : Nat) (chunk : List Nat)
    (hoff : off < 65536) (hc : chunk.length = 16) : (dumpLine off chunk).length = 74 := by
  have h1 := hexcol_length chunk
  have h2 := hex4_length off hoff
  simp only [dumpLine]
  simp only [List.length_append, List.length_replicate, List.length_map,
    List.length_cons, List.length_nil, h1, h2, hc]

theorem hexLines_chunk_widths (m : Nat) : ∀ (bs : List Nat) (off : Nat),
    bs.length = 16 * m → off + bs.length ≤ 65536 →
    ∀ l ∈ hexLines off bs, l.length = 74 := by
  induction m with
  | zero =>
    intro bs off hlen _
    have hbs : bs = [] := List.eq_nil_of_length_eq_zero (by omega)
    subst hbs
    rw [hexLines.eq_def]
    simp
  | succ k ih =>
    intro bs off hlen hoff
    match bs with
    | [] => rw [hexLines.eq_def]; simp
    | b :: rest =>
      have hlen' : rest.length + 1 = 16 * (k + 1) := by simpa using hlen
      have hoff' : off + (rest.length + 1) ≤ 65536 := by simpa using hoff
      rw [hexLines.eq_def]
      intro l hl
      simp only [List.mem_cons] at hl
      cases hl with
      | inl he =>
        subst he
        refine dumpLine_length _ _ (by omega) ?_
        simp [List.length_take]
        omega
      | inr hm =>
        refine ih ((b :: rest).drop 16) (off + 16) ?_ ?_ l hm
        · simp [List.length_drop]; omega
        · simp [List.length_drop]; omega

/-- Claim C7: on any 300-byte input the bounded dump (cap 256) consists of
the header, exactly 16 records that are all full-width (74 bytes: sixteen
byte cells each), and the trailing `... 44 more bytes` marker; the unbounded
dump of the same input is the header plus 19 records (the last one partial)
with nothing after them. -/
theorem c7_dump_records (data : List Nat) (h : data.length = 300) :
    formatBinaryPreview data =
      hexHeader ++ (hexLines 0 (data.take 256)).flatten ++ str2bytes "... 44 more bytes"
    ∧ (hexLines 0 (data.take 256)).length = 16
    ∧ (∀ l ∈ hexLines 0 (data.take 256), l.length = 74)
    ∧ fullHexPreview data = hexHeader ++ (hexLines 0 data).flatten
    ∧ (hexLines 0 data).length = 19 := by
  have hne : data ≠ [] := by
    intro he; rw [he] at h; simp at h
  have htake : (data.take 256).length = 256 := by simp [List.length_take, h]
  refine ⟨?_, ?_, ?_, rfl, ?_⟩
  · rw [formatBinaryPreview]
    simp only [if_neg hne, h]
    norm_num
    rfl
  · rw [hexLines_length, htake]
  · exact hexLines_chunk_widths 16 (data.take 256) 0 (by omega) (by omega)
  · rw [hexLines_length, h]

/-- Witness for C7 at the all-zero 300-byte input. -/
theorem c7_dump_records_witness :
    (hexLines 0 ((List.replicate 300 (0 : Nat)).take 256)).length = 16
    ∧ (hexLines 0 (List.replicate 300 (0 : Nat))).length = 19 :=
  ⟨(c7_dump_records (List.replicate 300 (0 : Nat)) (by simp only [List.length_replicate])).2.1,
   (c7_dump_records (List.replicate 300 (0 : Nat)) (by simp only [List.length_replicate])).2.2.2.2⟩

/-! ### C2: the binary flag on JSON-classified values -/

theorem parseStringBody_run_of_a (n : Nat) : ∀ rest : List Nat,
    parseStringBody (List.replicate n 97 ++ 34 :: rest) = some (List.replicate n 97, rest) := by
  induction n with
  | zero =>
    intro rest
    rw [parseStringBody.eq_def]
    simp
  | succ m ih =>
    intro rest
    rw [List.replicate_succ, List.cons_append, parseStringBody.eq_def]
    simp [ih rest]

/-- A valid JSON document longer than one MiB: a string literal of 1048575
`a` bytes (1048577 bytes in total). -/
def c2BigValue : List Nat := 34 :: (List.replicate 1048575 97 ++ [34])

theorem c2BigValue_length : c2BigValue.length = 1048577 := by
  show (34 :: (List.replicate 1048575 97 ++ [34]) : List Nat).length = 1048577
  rw [List.length_cons, List.length_append, List.length_replicate]
  rfl

theorem parseValue_string_head (fuel : Nat) (body : List Nat) :
    parseValue (fuel + 1) (34 :: body) =
      (parseStringBody body).map (fun p => (Json.str p.1, p.2)) := by
  rw [parseValue]
  simp [skipWs, List.dropWhile_cons, isWs]

theorem c2_big_unmarshal :
    jsonUnmarshal c2BigValue = some (Json.str (List.replicate 1048575 97)) := by
  have hfuel : 2 * c2BigValue.length + 2 = 2097155 + 1 := by rw [c2BigValue_length]
  rw [jsonUnmarshal, hfuel]
  rw [show c2BigValue = 34 :: (List.replicate 1048575 97 ++ 34 :: []) from rfl]
  rw [parseValue_string_head, parseStringBody_run_of_a]
  rfl

theorem c2_big_not_utf8 : isUTF8 c2BigValue = false := by
  rw [isUTF8, c2BigValue_length]
  rfl

/-- Claim C2, counterexample: a valid JSON value longer than 1 MiB is
classified with kind JSON while its binary flag is true (`IsBinary` is
computed from `isUTF8` alone, which rejects inputs over 1 MiB, and the JSON
branch does not reset it), so the binary flag is not equivalent to kind =
Binary. -/
theorem c2_json_with_binary_flag :
    (parseKeyValue [107] c2BigValue).IsBinary = true
    ∧ (parseKeyValue [107] c2BigValue).ValueType = str2bytes "JSON"
    ∧ (parseKeyValue [107] c2BigValue).IsJSON = true := by
  refine ⟨?_, ?_, ?_⟩ <;>
    rw [parseKeyValue.eq_def, c2_big_unmarshal, c2_big_not_utf8] <;> rfl

/-- Claim C2, amended: the binary flag always equals the negated UTF-8 check
(empty, over 1 MiB, NUL byte, or invalid UTF-8); for results not classified
as JSON the flag is true exactly when the kind is Binary, but a
JSON-classified result keeps the flag of the raw bytes and can carry
binary flag = true. -/
theorem c2_flag_iff_amended (key value : List Nat) :
    (parseKeyValue key value).IsBinary = !isUTF8 value
    ∧ ((parseKeyValue key value).IsJSON = false →
        ((parseKeyValue key value).IsBinary = true ↔
          (parseKeyValue key value).ValueType = str2bytes "Binary")) := by
  cases hu : jsonUnmarshal value with
  | some j =>
    constructor
    · simp [parseKeyValue, hu]
    · intro hj
      simp [parseKeyValue, hu] at hj
  | none =>
    cases hbin : isUTF8 value with
    | false =>
      constructor
      · simp [parseKeyValue, hu, hbin]
      · intro _
        simp [parseKeyValue, hu, hbin]
    | true =>
      constructor
      · simp [parseKeyValue, hu, hbin]
      · intro _
        simp [parseKeyValue, hu, hbin]
        decide

/-- Witness for C2's amended theorem on a plain text value. -/
theorem c2_flag_iff_witness :
    (parseKeyValue [107] (str2bytes "hi")).IsBinary = true ↔
      (parseKeyValue [107] (str2bytes "hi")).ValueType = str2bytes "Binary" :=
  (c2_flag_iff_amended [107] (str2bytes "hi")).2 (by rfl)

/-- Claim C3: for every value that parses as JSON, the bounded
classification's preview is the indented re-serialization truncated to 1000
bytes with the truncation marker exactly when the re-serialization is longer
than 1000 bytes, and the full-mode classification's preview is the
untruncated re-serialization. -/
theorem c3_json_preview_modes (key value : List Nat) (j : Json)
    (h : jsonUnmarshal value = some j) :
    (parseKeyValue key value).Preview =
      (if (marshalIndent j).length > 1000
        then (marshalIndent j).take 1000 ++ truncMarker
        else marshalIndent j)
    ∧ (getKeyDetailsKV key value).Preview = marshalIndent j := by
  constructor
  · rw [parseKeyValue.eq_def, h]
  · rw [getKeyDetailsKV.eq_def, h]

/-- Witness for C3 on the document `[1, 2]`. -/
theorem c3_json_preview_modes_witness :
    (parseKeyValue [107] (str2bytes "[1, 2]")).Preview =
      (if (marshalIndent (Json.arr [Json.num [49], Json.num [50]])).length > 1000
        then (marshalIndent (Json.arr [Json.num [49], Json.num [50]])).take 1000 ++ truncMarker
        else marshalIndent (Json.arr [Json.num [49], Json.num [50]]))
    ∧ (getKeyDetailsKV [107] (str2bytes "[1, 2]")).Preview =
        marshalIndent (Json.arr [Json.num [49], Json.num [50]]) :=
  c3_json_preview_modes [107] (str2bytes "[1, 2]") _ rfl

/-! ### C5 machinery: a successful JSON parse never consumes a NUL byte -/

/-- `rest` is a suffix of `input` and the consumed prefix is NUL-free. -/
def NoNulSpan (input rest : List Nat) : Prop :=
  ∃ pre, input = pre ++ rest ∧ (0 : Nat) ∉ pre

theorem noNulSpan_refl (l : List Nat) : NoNulSpan l l := ⟨[], rfl, by simp⟩

theorem noNulSpan_trans {a b c : List Nat} (h1 : NoNulSpan a b) (h2 : NoNulSpan b c) :
    NoNulSpan a c := by
  obtain ⟨p1, e1, n1⟩ := h1
  obtain ⟨p2, e2, n2⟩ := h2
  exact ⟨p1 ++ p2, by rw [e1, e2, List.append_assoc], by
    intro hm
    rcases List.mem_append.mp hm with hh | hh
    · exact n1 hh
    · exact n2 hh⟩

theorem noNulSpan_cons {b : Nat} (hb : b ≠ 0) {rest r : List Nat}
    (h : NoNulSpan rest r) : NoNulSpan (b :: rest) r := by
  obtain ⟨p, e, n⟩ := h
  exact ⟨b :: p, by rw [e]; rfl, by
    intro hm
    rcases List.mem_cons.mp hm with hh | hh
    · exact hb hh.symm
    · exact n hh⟩

theorem noNulSpan_skipWs (l : List Nat) : NoNulSpan l (skipWs l) := by
  induction l with
  | nil => exact noNulSpan_refl []
  | cons a t ih =>
    rw [skipWs, List.dropWhile_cons]
    by_cases ha : isWs a
    · rw [if_pos (by simpa using ha)]
      refine noNulSpan_cons ?_ ih
      revert ha
      rw [isWs]
      intro ha
      rcases Bool.or_eq_true_iff.mp ha with hh | hh
      · rcases Bool.or_eq_true_iff.mp hh with hg | hg
        · rcases Bool.or_eq_true_iff.mp hg with hf | hf <;> simp_all
        · simp_all
      · simp_all
    · rw [if_neg (by simpa using ha)]
      exact noNulSpan_refl _

theorem isDigit_ne_zero {b : Nat} (h : isDigit b = true) : b ≠ 0 := by
  rw [isDigit] at h
  rcases Bool.and_eq_true_iff.mp h with ⟨h1, _⟩
  intro he
  subst he
  simp at h1

theorem noNulSpan_dropWhile_digits (l : List Nat) : NoNulSpan l (l.dropWhile isDigit) := by
  induction l with
  | nil => exact noNulSpan_refl []
  | cons a t ih =>
    rw [List.dropWhile_cons]
    by_cases ha : isDigit a
    · rw [if_pos (by simpa using ha)]
      exact noNulSpan_cons (isDigit_ne_zero ha) ih
    · rw [if_neg (by simpa using ha)]
      exact noNulSpan_refl _

theorem hexVal_ne_zero {c v : Nat} (h : hexVal c = some v) : c ≠ 0 := by
  intro he
  subst he
  rw [hexVal] at h
  simp at h

theorem hexVal_zero : hexVal 0 = none := rfl

theorem parseUEscape_span {l enc : List Nat} {k : Nat}
    (h : parseUEscape l = some (enc, k)) : NoNulSpan l (l.drop k) := by
  rw [parseUEscape.eq_def] at h
  repeat'
    first
      | split at h
      | simp only [] at h
  all_goals try exact Option.noConfusion h
  all_goals simp only [Option.some.injEq, Prod.mk.injEq] at h
  all_goals obtain ⟨-, hk⟩ := h
  all_goals subst hk
  all_goals refine ⟨_, (List.take_append_drop _ _).symm, ?_⟩
  all_goals intro hm
  all_goals simp at hm
  all_goals
    first
      | (rcases hm with hm | hm | hm | hm | hm | hm | hm | hm <;>
          (subst hm ; simp only [hexVal_zero] at * ; contradiction))
      | (rcases hm with hm | hm | hm | hm <;>
          (subst hm ; simp only [hexVal_zero] at * ; contradiction))

theorem parseStringBody_span_aux (n : Nat) : ∀ (l s rest : List Nat), l.length ≤ n →
    parseStringBody l = some (s, rest) → NoNulSpan l rest := by
  induction n with
  | zero =>
    intro l s rest hlen h
    have hl : l = [] := List.eq_nil_of_length_eq_zero (by omega)
    subst hl
    rw [parseStringBody.eq_def] at h
    exact Option.noConfusion h
  | succ m ih =>
    intro l s rest hlen h
    match l with
    | [] =>
      rw [parseStringBody.eq_def] at h
      exact Option.noConfusion h
    | c :: r =>
      simp only [List.length_cons] at hlen
      rw [parseStringBody.eq_def] at h
      simp only [] at h
      by_cases h34 : c = 34
      · rw [if_pos h34] at h
        simp only [Option.some.injEq, Prod.mk.injEq] at h
        obtain ⟨-, hr⟩ := h
        subst hr
        exact noNulSpan_cons (by omega) (noNulSpan_refl r)
      · rw [if_neg h34] at h
        by_cases h92 : c = 92
        · rw [if_pos h92] at h
          match r with
          | [] => exact Option.noConfusion h
          | e :: r2 =>
            simp only [] at h
            simp only [List.length_cons] at hlen
            have hr2 : r2.length ≤ m := by omega
            by_cases hesc : (e = 34 || e = 92 || e = 47) = true
            · rw [if_pos hesc] at h
              obtain ⟨p, hp, hfp⟩ := Option.map_eq_some'.mp h
              have hrest : rest = p.2 := by
                have := congrArg Prod.snd hfp
                simpa using this.symm
              subst hrest
              have hene : e ≠ 0 := by
                simp at hesc
                omega
              exact noNulSpan_cons (by omega) (noNulSpan_cons hene (ih r2 p.1 p.2 hr2 (by rw [hp])))
            · rw [if_neg hesc] at h
              by_cases he98 : e = 98
              · rw [if_pos he98] at h
                obtain ⟨p, hp, hfp⟩ := Option.map_eq_some'.mp h
                have hrest : rest = p.2 := by
                  have := congrArg Prod.snd hfp
                  simpa using this.symm
                subst hrest
                exact noNulSpan_cons (by omega) (noNulSpan_cons (by omega)
                  (ih r2 p.1 p.2 hr2 (by rw [hp])))
              · rw [if_neg he98] at h
                by_cases he102 : e = 102
                · rw [if_pos he102] at h
                  obtain ⟨p, hp, hfp⟩ := Option.map_eq_some'.mp h
                  have hrest : rest = p.2 := by
                    have := congrArg Prod.snd hfp
                    simpa using this.symm
                  subst hrest
                  exact noNulSpan_cons (by omega) (noNulSpan_cons (by omega)
                    (ih r2 p.1 p.2 hr2 (by rw [hp])))
                · rw [if_neg he102] at h
                  by_cases he110 : e = 110
                  · rw [if_pos he110] at h
                    obtain ⟨p, hp, hfp⟩ := Option.map_eq_some'.mp h
                    have hrest : rest = p.2 := by
                      have := congrArg Prod.snd hfp
                      simpa using this.symm
                    subst hrest
                    exact noNulSpan_cons (by omega) (noNulSpan_cons (by omega)
                      (ih r2 p.1 p.2 hr2 (by rw [hp])))
                  · rw [if_neg he110] at h
                    by_cases he114 : e = 114
                    · rw [if_pos he114] at h
                      obtain ⟨p, hp, hfp⟩ := Option.map_eq_some'.mp h
                      have hrest : rest = p.2 := by
                        have := congrArg Prod.snd hfp
                        simpa using this.symm
                      subst hrest
                      exact noNulSpan_cons (by omega) (noNulSpan_cons (by omega)
                        (ih r2 p.1 p.2 hr2 (by rw [hp])))
                    · rw [if_neg he114] at h
                      by_cases he116 : e = 116
                      · rw [if_pos he116] at h
                        obtain ⟨p, hp, hfp⟩ := Option.map_eq_some'.mp h
                        have hrest : rest = p.2 := by
                          have := congrArg Prod.snd hfp
                          simpa using this.symm
                        subst hrest
                        exact noNulSpan_cons (by omega) (noNulSpan_cons (by omega)
                          (ih r2 p.1 p.2 hr2 (by rw [hp])))
                      · rw [if_neg he116] at h
                        by_cases he117 : e = 117
                        · rw [if_pos he117] at h
                          cases hue : parseUEscape r2 with
                          | none =>
                            rw [hue] at h
                            exact Option.noConfusion h
                          | some ek =>
                            rw [hue] at h
                            obtain ⟨enc, k⟩ := ek
                            obtain ⟨p, hp, hfp⟩ := Option.map_eq_some'.mp h
                            have hrest : rest = p.2 := by
                              have := congrArg Prod.snd hfp
                              simpa using this.symm
                            subst hrest
                            have hdl : (r2.drop k).length ≤ m := by
                              have := List.length_drop k r2
                              omega
                            refine noNulSpan_cons (by omega) (noNulSpan_cons (by omega) ?_)
                            exact noNulSpan_trans (parseUEscape_span hue)
                              (ih (r2.drop k) p.1 p.2 hdl (by rw [hp]))
                        · rw [if_neg he117] at h
                          exact Option.noConfusion h
        · rw [if_neg h92] at h
          by_cases hlt : c < 32
          · rw [if_pos hlt] at h
            exact Option.noConfusion h
          · rw [if_neg hlt] at h
            obtain ⟨p, hp, hfp⟩ := Option.map_eq_some'.mp h
            have hrest : rest = p.2 := by
              have := congrArg Prod.snd hfp
              simpa using this.symm
            subst hrest
            exact noNulSpan_cons (by omega) (ih r p.1 p.2 (by omega) (by rw [hp]))

theorem parseStringBody_span {l s rest : List Nat}
    (h : parseStringBody l = some (s, rest)) : NoNulSpan l rest :=
  parseStringBody_span_aux l.length l s rest le_rfl h

theorem parseExpPart_span {lex rest lex2 rest2 : List Nat}
    (h : parseExpPart lex rest = some (lex2, rest2)) : NoNulSpan rest rest2 := by
  cases rest with
  | nil =>
    simp [parseExpPart] at h
    obtain ⟨-, hr⟩ := h
    subst hr
    exact noNulSpan_refl []
  | cons e r1 =>
    simp only [parseExpPart] at h
    by_cases hee : (e = 101 || e = 69) = true
    · rw [if_pos hee] at h
      have hene : e ≠ 0 := by
        simp at hee
        omega
      cases r1 with
      | nil => simp at h
      | cons a r =>
        simp only [] at h
        by_cases ha : (a = 43 || a = 45) = true
        · rw [if_pos ha] at h
          by_cases hds : r.takeWhile isDigit = []
          · rw [if_pos hds] at h
            exact Option.noConfusion h
          · rw [if_neg hds] at h
            simp only [Option.some.injEq, Prod.mk.injEq] at h
            obtain ⟨-, hr⟩ := h
            subst hr
            have hane : a ≠ 0 := by
              simp at ha
              omega
            exact noNulSpan_cons hene (noNulSpan_cons hane (noNulSpan_dropWhile_digits r))
        · rw [if_neg ha] at h
          by_cases hds : (a :: r).takeWhile isDigit = []
          · rw [if_pos hds] at h
            exact Option.noConfusion h
          · rw [if_neg hds] at h
            simp only [Option.some.injEq, Prod.mk.injEq] at h
            obtain ⟨-, hr⟩ := h
            subst hr
            exact noNulSpan_cons hene (noNulSpan_dropWhile_digits (a :: r))
    · rw [if_neg hee] at h
      simp only [Option.some.injEq, Prod.mk.injEq] at h
      obtain ⟨-, hr⟩ := h
      subst hr
      exact noNulSpan_refl _

theorem parseFracPart_span {lex rest lex2 rest2 : List Nat}
    (h : parseFracPart lex rest = some (lex2, rest2)) : NoNulSpan rest rest2 := by
  cases rest with
  | nil => exact parseExpPart_span h
  | cons a r1 =>
    simp only [parseFracPart] at h
    by_cases ha : a = 46
    · rw [if_pos ha] at h
      by_cases hds : r1.takeWhile isDigit = []
      · rw [if_pos hds] at h
        exact Option.noConfusion h
      · rw [if_neg hds] at h
        refine noNulSpan_cons (by omega) ?_
        exact noNulSpan_trans (noNulSpan_dropWhile_digits r1) (parseExpPart_span h)
    · rw [if_neg ha] at h
      exact parseExpPart_span h

theorem parseNumber_span {input lex2 rest2 : List Nat}
    (h : parseNumber input = some (lex2, rest2)) : NoNulSpan input rest2 := by
  cases input with
  | nil => simp [parseNumber] at h
  | cons a r =>
    simp only [parseNumber] at h
    by_cases ha : a = 45
    · rw [if_pos ha] at h
      simp only [] at h
      cases r with
      | nil => simp at h
      | cons c r2 =>
        simp only [] at h
        by_cases hc : c = 48
        · rw [if_pos hc] at h
          exact noNulSpan_cons (by omega) (noNulSpan_cons (by omega) (parseFracPart_span h))
        · rw [if_neg hc] at h
          by_cases hc2 : 49 ≤ c ∧ c ≤ 57
          · rw [if_pos hc2] at h
            refine noNulSpan_cons (by omega) (noNulSpan_cons (by omega) ?_)
            exact noNulSpan_trans (noNulSpan_dropWhile_digits r2) (parseFracPart_span h)
          · rw [if_neg hc2] at h
            exact Option.noConfusion h
    · rw [if_neg ha] at h
      simp only [] at h
      by_cases hc : a = 48
      · rw [if_pos hc] at h
        exact noNulSpan_cons (by omega) (parseFracPart_span h)
      · rw [if_neg hc] at h
        by_cases hc2 : 49 ≤ a ∧ a ≤ 57
        · rw [if_pos hc2] at h
          refine noNulSpan_cons (by omega) ?_
          exact noNulSpan_trans (noNulSpan_dropWhile_digits r) (parseFracPart_span h)
        · rw [if_neg hc2] at h
          exact Option.noConfusion h

theorem parse_nonul (fuel : Nat) :
    (∀ input j rest, parseValue fuel input = some (j, rest) → NoNulSpan input rest)
    ∧ (∀ input acc j rest, parseElems fuel input acc = some (j, rest) → NoNulSpan input rest)
    ∧ (∀ input acc j rest, parseFields fuel input acc = some (j, rest) → NoNulSpan input rest) := by
  induction fuel with
  | zero =>
    refine ⟨?_, ?_, ?_⟩
    · intro input j rest h
      rw [parseValue] at h
      exact Option.noConfusion h
    · intro input acc j rest h
      rw [parseElems] at h
      exact Option.noConfusion h
    · intro input acc j rest h
      rw [parseFields] at h
      exact Option.noConfusion h
  | succ f ih =>
    refine ⟨?_, ?_, ?_⟩
    · -- parseValue
      intro input j rest h
      rw [parseValue] at h
      cases hws : skipWs input with
      | nil =>
        rw [hws] at h
        exact Option.noConfusion h
      | cons c rest0 =>
        rw [hws] at h
        simp only [] at h
        have hspan0 : NoNulSpan input (c :: rest0) := hws ▸ noNulSpan_skipWs input
        by_cases h34 : c = 34
        · rw [if_pos h34] at h
          obtain ⟨p, hp, hfp⟩ := Option.map_eq_some'.mp h
          have hrest : rest = p.2 := by
            have := congrArg Prod.snd hfp
            simpa using this.symm
          subst hrest
          exact noNulSpan_trans hspan0
            (noNulSpan_cons (by omega) (parseStringBody_span (by rw [hp])))
        · rw [if_neg h34] at h
          by_cases h91 : c = 91
          · rw [if_pos h91] at h
            cases hws2 : skipWs rest0 with
            | nil =>
              rw [hws2] at h
              simp only [] at h
              have s2 : NoNulSpan rest0 [] := hws2 ▸ noNulSpan_skipWs rest0
              refine noNulSpan_trans hspan0 (noNulSpan_cons (by omega) ?_)
              exact noNulSpan_trans s2 (ih.2.1 [] [] j rest h)
            | cons a r2 =>
              rw [hws2] at h
              simp only [] at h
              have s2 : NoNulSpan rest0 (a :: r2) := hws2 ▸ noNulSpan_skipWs rest0
              by_cases ha : a = 93
              · rw [if_pos ha] at h
                simp only [Option.some.injEq, Prod.mk.injEq] at h
                obtain ⟨-, hr⟩ := h
                subst hr
                refine noNulSpan_trans hspan0 (noNulSpan_cons (by omega) ?_)
                exact noNulSpan_trans s2 (noNulSpan_cons (by omega) (noNulSpan_refl r2))
              · rw [if_neg ha] at h
                refine noNulSpan_trans hspan0 (noNulSpan_cons (by omega) ?_)
                exact noNulSpan_trans s2 (ih.2.1 (a :: r2) [] j rest h)
          · rw [if_neg h91] at h
            by_cases h123 : c = 123
            · rw [if_pos h123] at h
              cases hws2 : skipWs rest0 with
              | nil =>
                rw [hws2] at h
                simp only [] at h
                have s2 : NoNulSpan rest0 [] := hws2 ▸ noNulSpan_skipWs rest0
                refine noNulSpan_trans hspan0 (noNulSpan_cons (by omega) ?_)
                exact noNulSpan_trans s2 (ih.2.2 [] [] j rest h)
              | cons a r2 =>
                rw [hws2] at h
                simp only [] at h
                have s2 : NoNulSpan rest0 (a :: r2) := hws2 ▸ noNulSpan_skipWs rest0
                by_cases ha : a = 125
                · rw [if_pos ha] at h
                  simp only [Option.some.injEq, Prod.mk.injEq] at h
                  obtain ⟨-, hr⟩ := h
                  subst hr
                  refine noNulSpan_trans hspan0 (noNulSpan_cons (by omega) ?_)
                  exact noNulSpan_trans s2 (noNulSpan_cons (by omega) (noNulSpan_refl r2))
                · rw [if_neg ha] at h
                  refine noNulSpan_trans hspan0 (noNulSpan_cons (by omega) ?_)
                  exact noNulSpan_trans s2 (ih.2.2 (a :: r2) [] j rest h)
            · rw [if_neg h123] at h
              by_cases h116 : c = 116
              · rw [if_pos h116] at h
                match rest0, h with
                | a1 :: a2 :: a3 :: r, h => ?_
                | [], h => exact Option.noConfusion h
                | [a1], h => exact Option.noConfusion h
                | [a1, a2], h => exact Option.noConfusion h
                simp only [] at h
                by_cases hlit : a1 = 114 ∧ a2 = 117 ∧ a3 = 101
                · rw [if_pos hlit] at h
                  simp only [Option.some.injEq, Prod.mk.injEq] at h
                  obtain ⟨-, hr⟩ := h
                  subst hr
                  obtain ⟨e1, e2, e3⟩ := hlit
                  refine noNulSpan_trans hspan0 (noNulSpan_cons (by omega) ?_)
                  exact noNulSpan_cons (by omega) (noNulSpan_cons (by omega)
                    (noNulSpan_cons (by omega) (noNulSpan_refl r)))
                · rw [if_neg hlit] at h
                  exact Option.noConfusion h
              · rw [if_neg h116] at h
                by_cases h102 : c = 102
                · rw [if_pos h102] at h
                  match rest0, h with
                  | a1 :: a2 :: a3 :: a4 :: r, h => ?_
                  | [], h => exact Option.noConfusion h
                  | [a1], h => exact Option.noConfusion h
                  | [a1, a2], h => exact Option.noConfusion h
                  | [a1, a2, a3], h => exact Option.noConfusion h
                  simp only [] at h
                  by_cases hlit : a1 = 97 ∧ a2 = 108 ∧ a3 = 115 ∧ a4 = 101
                  · rw [if_pos hlit] at h
                    simp only [Option.some.injEq, Prod.mk.injEq] at h
                    obtain ⟨-, hr⟩ := h
                    subst hr
                    obtain ⟨e1, e2, e3, e4⟩ := hlit
                    refine noNulSpan_trans hspan0 (noNulSpan_cons (by omega) ?_)
                    exact noNulSpan_cons (by omega) (noNulSpan_cons (by omega)
                      (noNulSpan_cons (by omega) (noNulSpan_cons (by omega) (noNulSpan_refl r))))
                  · rw [if_neg hlit] at h
                    exact Option.noConfusion h
                · rw [if_neg h102] at h
                  by_cases h110 : c = 110
                  · rw [if_pos h110] at h
                    match rest0, h with
                    | a1 :: a2 :: a3 :: r, h => ?_
                    | [], h => exact Option.noConfusion h
                    | [a1], h => exact Option.noConfusion h
                    | [a1, a2], h => exact Option.noConfusion h
                    simp only [] at h
                    by_cases hlit : a1 = 117 ∧ a2 = 108 ∧ a3 = 108
                    · rw [if_pos hlit] at h
                      simp only [Option.some.injEq, Prod.mk.injEq] at h
                      obtain ⟨-, hr⟩ := h
                      subst hr
                      obtain ⟨e1, e2, e3⟩ := hlit
                      refine noNulSpan_trans hspan0 (noNulSpan_cons (by omega) ?_)
                      exact noNulSpan_cons (by omega) (noNulSpan_cons (by omega)
                        (noNulSpan_cons (by omega) (noNulSpan_refl r)))
                    · rw [if_neg hlit] at h
                      exact Option.noConfusion h
                  · rw [if_neg h110] at h
                    obtain ⟨p, hp, hfp⟩ := Option.map_eq_some'.mp h
                    have hrest : rest = p.2 := by
                      have := congrArg Prod.snd hfp
                      simpa using this.symm
                    subst hrest
                    exact noNulSpan_trans hspan0 (parseNumber_span (by rw [hp]))
    · -- parseElems
      intro input acc j rest h
      rw [parseElems] at h
      cases hpv : parseValue f input with
      | none =>
        rw [hpv] at h
        exact Option.noConfusion h
      | some jr =>
        rw [hpv] at h
        simp only [] at h
        have s1 : NoNulSpan input jr.2 := ih.1 input jr.1 jr.2 (by rw [hpv])
        cases hws : skipWs jr.2 with
        | nil =>
          rw [hws] at h
          exact Option.noConfusion h
        | cons a r2 =>
          rw [hws] at h
          simp only [] at h
          have s2 : NoNulSpan jr.2 (a :: r2) := hws ▸ noNulSpan_skipWs jr.2
          by_cases ha44 : a = 44
          · rw [if_pos ha44] at h
            refine noNulSpan_trans s1 (noNulSpan_trans s2 (noNulSpan_cons (by omega) ?_))
            exact ih.2.1 r2 (acc ++ [jr.1]) j rest h
          · rw [if_neg ha44] at h
            by_cases ha93 : a = 93
            · rw [if_pos ha93] at h
              simp only [Option.some.injEq, Prod.mk.injEq] at h
              obtain ⟨-, hr⟩ := h
              subst hr
              exact noNulSpan_trans s1 (noNulSpan_trans s2
                (noNulSpan_cons (by omega) (noNulSpan_refl r2)))
            · rw [if_neg ha93] at h
              exact Option.noConfusion h
    · -- parseFields
      intro input acc j rest h
      rw [parseFields] at h
      cases hws : skipWs input with
      | nil =>
        rw [hws] at h
        exact Option.noConfusion h
      | cons q r1 =>
        rw [hws] at h
        simp only [] at h
        have s0 : NoNulSpan input (q :: r1) := hws ▸ noNulSpan_skipWs input
        by_cases hq : q = 34
        · rw [if_pos hq] at h
          cases hsb : parseStringBody r1 with
          | none =>
            rw [hsb] at h
            exact Option.noConfusion h
          | some kr =>
            rw [hsb] at h
            simp only [] at h
            have s1 : NoNulSpan r1 kr.2 := parseStringBody_span (by rw [hsb])
            cases hws2 : skipWs kr.2 with
            | nil =>
              rw [hws2] at h
              exact Option.noConfusion h
            | cons col r3 =>
              rw [hws2] at h
              simp only [] at h
              have s2 : NoNulSpan kr.2 (col :: r3) := hws2 ▸ noNulSpan_skipWs kr.2
              by_cases hcol : col = 58
              · rw [if_pos hcol] at h
                cases hpv : parseValue f r3 with
                | none =>
                  rw [hpv] at h
                  exact Option.noConfusion h
                | some jr4 =>
                  rw [hpv] at h
                  simp only [] at h
                  have s3 : NoNulSpan r3 jr4.2 := ih.1 r3 jr4.1 jr4.2 (by rw [hpv])
                  cases hws3 : skipWs jr4.2 with
                  | nil =>
                    rw [hws3] at h
                    exact Option.noConfusion h
                  | cons a r5 =>
                    rw [hws3] at h
                    simp only [] at h
                    have s4 : NoNulSpan jr4.2 (a :: r5) := hws3 ▸ noNulSpan_skipWs jr4.2
                    by_cases ha44 : a = 44
                    · rw [if_pos ha44] at h
                      have s5 : NoNulSpan r5 rest :=
                        ih.2.2 r5 (acc ++ [(kr.1, jr4.1)]) j rest h
                      refine noNulSpan_trans s0 (noNulSpan_cons (by omega) ?_)
                      refine noNulSpan_trans s1 (noNulSpan_trans s2
                        (noNulSpan_cons (by omega) ?_))
                      exact noNulSpan_trans s3 (noNulSpan_trans s4
                        (noNulSpan_cons (by omega) s5))
                    · rw [if_neg ha44] at h
                      by_cases ha125 : a = 125
                      · rw [if_pos ha125] at h
                        simp only [Option.some.injEq, Prod.mk.injEq] at h
                        obtain ⟨-, hr⟩ := h
                        subst hr
                        refine noNulSpan_trans s0 (noNulSpan_cons (by omega) ?_)
                        refine noNulSpan_trans s1 (noNulSpan_trans s2
                          (noNulSpan_cons (by omega) ?_))
                        exact noNulSpan_trans s3 (noNulSpan_trans s4
                          (noNulSpan_cons (by omega) (noNulSpan_refl r5)))
                      · rw [if_neg ha125] at h
                        exact Option.noConfusion h
              · rw [if_neg hcol] at h
                exact Option.noConfusion h
        · rw [if_neg hq] at h
          exact Option.noConfusion h

theorem isWs_ne_zero {b : Nat} (h : isWs b = true) : b ≠ 0 := by
  rw [isWs] at h
  rcases Bool.or_eq_true_iff.mp h with hh | hh
  · rcases Bool.or_eq_true_iff.mp hh with hg | hg
    · rcases Bool.or_eq_true_iff.mp hg with hf | hf <;> simp_all
    · simp_all
  · simp_all

theorem jsonUnmarshal_no_nul (v : List Nat) (j : Json)
    (h : jsonUnmarshal v = some j) : (0 : Nat) ∉ v := by
  rw [jsonUnmarshal] at h
  cases hp : parseValue (2 * v.length + 2) v with
  | none =>
    rw [hp] at h
    exact Option.noConfusion h
  | some p =>
    rw [hp] at h
    simp only [] at h
    have hspan := (parse_nonul (2 * v.length + 2)).1 v p.1 p.2 (by rw [hp])
    by_cases hrest : skipWs p.2 = []
    · have hallws : ∀ b ∈ p.2, isWs b := by
        rw [skipWs] at hrest
        exact fun b hb => List.dropWhile_eq_nil_iff.mp hrest b hb
      obtain ⟨pre, hpre, hnul⟩ := hspan
      intro hmem
      rw [hpre] at hmem
      rcases List.mem_append.mp hmem with h1 | h2
      · exact hnul h1
      · exact isWs_ne_zero (hallws 0 h2) rfl
    · rw [if_neg hrest] at h
      exact Option.noConfusion h

theorem isUTF8_of_mem_zero {v : List Nat} (h : (0 : Nat) ∈ v) : isUTF8 v = false := by
  rw [isUTF8]
  by_cases hl : (v.length = 0 || decide (v.length > 1048576)) = true
  · rw [if_pos hl]
  · rw [if_neg hl]
    rw [if_pos (by exact List.any_eq_true.mpr ⟨0, h, by simp⟩)]

/-- Claim C5: every byte sequence containing a NUL byte is classified as
Binary — never Text and never JSON (a NUL can never be consumed by the JSON
scanner, and `isUTF8` rejects NUL bytes outright). -/
theorem c5_nul_is_binary (key value : List Nat) (h : (0 : Nat) ∈ value) :
    (parseKeyValue key value).ValueType = str2bytes "Binary"
    ∧ (parseKeyValue key value).IsJSON = false
    ∧ (parseKeyValue key value).IsBinary = true := by
  have hj : jsonUnmarshal value = none := by
    cases hu : jsonUnmarshal value with
    | none => rfl
    | some j => exact absurd h (jsonUnmarshal_no_nul value j hu)
  have hutf : isUTF8 value = false := isUTF8_of_mem_zero h
  refine ⟨?_, ?_, ?_⟩ <;> rw [parseKeyValue.eq_def, hj, hutf] <;> rfl

/-- Witness for C5 at the one-byte NUL value. -/
theorem c5_nul_is_binary_witness :
    (parseKeyValue [] [0]).ValueType = str2bytes "Binary"
    ∧ (parseKeyValue [] [0]).IsJSON = false
    ∧ (parseKeyValue [] [0]).IsBinary = true :=
  c5_nul_is_binary [] [0] (by decide)

/-! ### C4: failed levels return nil, never the parent bucket -/

theorem tryContr_none_of_all_fail (b : Node) (segs : List (List Nat))
    (hall : ∀ k, 2 ≤ k → childBucket b (joinSlash (segs.take k)) = none) :
    ∀ kk, tryContr b segs kk = none := by
  intro kk
  induction kk with
  | zero => rfl
  | succ n ihn =>
    match n, ihn with
    | 0, _ => rfl
    | m + 1, ihn =>
      rw [tryContr, hall (m + 2) (by omega)]
      exact ihn

/-- Claim C4: resolution never partially succeeds.  When at some level the
next segment, the joined remainder and every multi-segment contraction all
fail to name a child bucket, the loop returns nil rather than the current
(parent) bucket; in particular, for a top-level bucket `A` with no child
bucket named `nonexistent`, the path `A/nonexistent` resolves to NotFound
for every store. -/
theorem c4_resolution_no_parent_fallback :
    (∀ (b : Node) (name : List Nat) (rest : List (List Nat)),
      childBucket b name = none →
      childBucket b (joinSlash (name :: rest)) = none →
      (∀ k, 2 ≤ k → childBucket b (joinSlash ((name :: rest).take k)) = none) →
      resolveLoop b (name :: rest) = none)
    ∧ (∀ (s : Store) (b : Node),
      txBucket s (str2bytes "A") = some b →
      childBucket b (str2bytes "nonexistent") = none →
      findBucket s (str2bytes "A/nonexistent") = none) := by
  constructor
  · intro b name rest h1 h2 h3
    rw [resolveLoop.eq_def]
    simp only [h1, h2]
    have ht := tryContr_none_of_all_fail b (name :: rest) h3 (name :: rest).length
    split
    · rename_i cand j heq
      rw [ht] at heq
      exact Option.noConfusion heq
    · rfl
  · intro s b hA hne
    rw [show str2bytes "A" = [65] from rfl] at hA
    rw [show str2bytes "nonexistent" =
      [110, 111, 110, 101, 120, 105, 115, 116, 101, 110, 116] from rfl] at hne
    rw [show findBucket s (str2bytes "A/nonexistent") =
      findBucketParts s [[65], [110, 111, 110, 101, 120, 105, 115, 116, 101, 110, 116]] from rfl]
    simp only [findBucketParts]
    rw [hA]
    show resolveLoop b [[110, 111, 110, 101, 120, 105, 115, 116, 101, 110, 116]] = none
    rw [resolveLoop.eq_def]
    simp only [hne,
      show joinSlash [[110, 111, 110, 101, 120, 105, 115, 116, 101, 110, 116]] =
        [110, 111, 110, 101, 120, 105, 115, 116, 101, 110, 116] from rfl]
    split
    · rename_i cand j heq
      rw [show tryContr b [[110, 111, 110, 101, 120, 105, 115, 116, 101, 110, 116]]
        [[110, 111, 110, 101, 120, 105, 115, 116, 101, 110, 116]].length = none from rfl] at heq
      exact Option.noConfusion heq
    · rfl

/-- Witness for C4 at a store whose bucket `A` is empty. -/
theorem c4_resolution_no_parent_fallback_witness :
    resolveLoop (Node.bucket []) [[120]] = none
    ∧ findBucket [([65], Node.bucket [])] (str2bytes "A/nonexistent") = none :=
  ⟨c4_resolution_no_parent_fallback.1 (Node.bucket []) [120] [] rfl rfl (fun _ _ => rfl),
   c4_resolution_no_parent_fallback.2 [([65], Node.bucket [])] (Node.bucket []) rfl rfl⟩

/-! ### C8: the shared result cap is not enforced inside one bucket -/

theorem searchEntries_all_leaf_match_length :
    ∀ (entries : List (List Nat × Node)) (path query : List Nat)
      (results : List SearchResult) (maxResults : Nat),
    (∀ e ∈ entries, (∃ v, e.2 = Node.leaf v) ∧ containsSub (toLowerBytes e.1) query = true) →
    (searchEntries entries path query results maxResults).length =
      results.length + entries.length := by
  intro entries
  induction entries with
  | nil =>
    intro path query results maxResults _
    rw [searchEntries.eq_def]
    simp
  | cons e rest ih =>
    intro path query results maxResults hall
    obtain ⟨⟨v, hleaf⟩, hmatch⟩ := hall e (by simp)
    obtain ⟨k, node⟩ := e
    simp only [] at hleaf
    subst hleaf
    rw [searchEntries.eq_def]
    simp only [hmatch, if_true]
    rw [ih path query (results ++ [mkSearchResult path k
      ((if path = [] then [] else path ++ [slash]) ++ k) k v]) maxResults
      (fun e he => hall e (by simp [he]))]
    simp
    omega

theorem containsSub_cons_self (c : Nat) (t : List Nat) : containsSub (c :: t) [c] = true := by
  rw [containsSub]
  apply List.any_eq_true.mpr
  refine ⟨0, by simp, ?_⟩
  simp

/-- The failing store for C8: one top-level bucket `b` holding 101 key/value
pairs whose keys `k0` .. `k100` all match the query `k`. -/
def c8Entries : List (List Nat × Node) :=
  (List.range 101).map (fun i => (107 :: natToDec i, Node.leaf [120]))

def c8Store : Store := [(str2bytes "b", Node.bucket c8Entries)]

/-- Claim C8 evidence (code bug): searching the failing store returns 101
results, exceeding the 100-result cap: inside a single bucket's ForEach the
post-append cap check returns nil, which continues the iteration, so every
matching key of the bucket is appended. -/
theorem c8_cap_exceeded : (searchKeys c8Store (str2bytes "k")).length = 101 := by
  rw [searchKeys]
  rw [show c8Store = [(str2bytes "b", Node.bucket c8Entries)] from rfl]
  rw [List.foldl_cons, List.foldl_nil]
  rw [if_neg (by simp)]
  simp only []
  rw [searchEntries_all_leaf_match_length c8Entries (str2bytes "b")
    (toLowerBytes (str2bytes "k")) [] 100 ?_]
  · simp [c8Entries]
  · intro e he
    simp only [c8Entries, List.mem_map] at he
    obtain ⟨i, _, he⟩ := he
    subst he
    refine ⟨⟨[120], rfl⟩, ?_⟩
    rw [show toLowerBytes (str2bytes "k") = [107] from rfl]
    rw [show toLowerBytes (107 :: natToDec i) = 107 :: toLowerBytes (natToDec i) from rfl]
    exact containsSub_cons_self 107 _

/-! ### C10: resolution ignores empty path segments -/

theorem split47_ne_nil (p : List Nat) : split47 p ≠ [] := by
  induction p with
  | nil => simp [split47]
  | cons b bs ih =>
    rw [split47]
    by_cases hb : b = slash
    · simp [hb]
    · rw [if_neg hb]
      cases h : split47 bs with
      | nil => simp
      | cons t ts => simp

theorem split47_append_slash (p : List Nat) :
    split47 (p ++ [slash]) = split47 p ++ [[]] := by
  induction p with
  | nil => simp [split47]
  | cons b bs ih =>
    rw [List.cons_append, split47, split47]
    by_cases hb : b = slash
    · simp [hb, ih]
    · rw [if_neg hb, if_neg hb]
      cases h : split47 bs with
      | nil => exact absurd h (split47_ne_nil bs)
      | cons t ts =>
        rw [ih, h]
        simp

theorem filter_split47_one_trailing (core : List Nat) :
    (split47 (core ++ [slash])).filter (fun x => x != []) =
      (split47 core).filter (fun x => x != []) := by
  rw [split47_append_slash, List.filter_append]
  simp

theorem filter_split47_trailing (suf : List Nat) : ∀ (core : List Nat),
    (∀ x ∈ suf, x = slash) →
    (split47 (core ++ suf)).filter (fun x => x != []) =
      (split47 core).filter (fun x => x != []) := by
  induction suf with
  | nil => intro core _; simp
  | cons a rest ih =>
    intro core hall
    have ha : a = slash := hall a (by simp)
    subst ha
    rw [show core ++ slash :: rest = (core ++ [slash]) ++ rest by simp]
    rw [ih (core ++ [slash]) (fun x hx => hall x (by simp [hx]))]
    exact filter_split47_one_trailing core

theorem filter_split47_leading (pre : List Nat) : ∀ (p : List Nat),
    (∀ x ∈ pre, x = slash) →
    (split47 (pre ++ p)).filter (fun x => x != []) =
      (split47 p).filter (fun x => x != []) := by
  induction pre with
  | nil => intro p _; simp
  | cons a rest ih =>
    intro p hall
    have ha : a = slash := hall a (by simp)
    subst ha
    rw [List.cons_append, split47, if_pos rfl]
    rw [show (([] : List Nat) :: split47 (rest ++ p)).filter (fun x => x != []) =
      (split47 (rest ++ p)).filter (fun x => x != []) by simp]
    exact ih p (fun x hx => hall x (by simp [hx]))

theorem trim47_decomp (p : List Nat) :
    ∃ pre suf, p = pre ++ trim47 p ++ suf
      ∧ (∀ x ∈ pre, x = slash) ∧ (∀ x ∈ suf, x = slash) := by
  rw [trim47]
  set t1 := p.dropWhile (fun b => b == slash) with ht1
  set t2 := t1.reverse.dropWhile (fun b => b == slash) with ht2
  refine ⟨p.takeWhile (fun b => b == slash),
    (t1.reverse.takeWhile (fun b => b == slash)).reverse, ?_, ?_, ?_⟩
  · have e1 : p = p.takeWhile (fun b => b == slash) ++ t1 := by
      rw [ht1, List.takeWhile_append_dropWhile]
    have e2 : t1.reverse = t1.reverse.takeWhile (fun b => b == slash) ++ t2 := by
      rw [ht2, List.takeWhile_append_dropWhile]
    have e3 : t1 = t2.reverse ++ (t1.reverse.takeWhile (fun b => b == slash)).reverse := by
      have := congrArg List.reverse e2
      simpa using this
    rw [List.append_assoc]
    rw [← e3]
    exact e1
  · intro x hx
    have := List.mem_takeWhile_imp hx
    simpa using this
  · intro x hx
    rw [List.mem_reverse] at hx
    have := List.mem_takeWhile_imp hx
    simpa using this

theorem filter_split47_trim (p : List Nat) :
    (split47 (trim47 p)).filter (fun x => x != []) =
      (split47 p).filter (fun x => x != []) := by
  obtain ⟨pre, suf, hdecomp, hpre, hsuf⟩ := trim47_decomp p
  conv_rhs => rw [hdecomp]
  rw [List.append_assoc] at *
  rw [filter_split47_leading pre (trim47 p ++ suf) hpre]
  rw [filter_split47_trailing suf (trim47 p) hsuf]

theorem split47_segs_no_slash (p : List Nat) : ∀ seg ∈ split47 p, slash ∉ seg := by
  induction p with
  | nil =>
    intro seg hseg
    simp [split47] at hseg
    simp [hseg]
  | cons b bs ih =>
    intro seg hseg
    rw [split47] at hseg
    by_cases hb : b = slash
    · rw [if_pos hb] at hseg
      rcases List.mem_cons.mp hseg with hh | hh
      · simp [hh]
      · exact ih seg hh
    · rw [if_neg hb] at hseg
      cases h : split47 bs with
      | nil => exact absurd h (split47_ne_nil bs)
      | cons t ts =>
        rw [h] at hseg
        rcases List.mem_cons.mp hseg with hh | hh
        · subst hh
          intro hmem
          rcases List.mem_cons.mp hmem with hg | hg
          · exact hb hg.symm
          · exact ih t (by rw [h]; simp) hg
        · exact ih seg (by rw [h]; simp [hh])

theorem split47_cons_seg (s : List Nat) : ∀ (bs t : List Nat) (ts : List (List Nat)),
    slash ∉ s → split47 bs = t :: ts → split47 (s ++ bs) = (s ++ t) :: ts := by
  induction s with
  | nil =>
    intro bs t ts _ h
    simpa using h
  | cons a s2 ih =>
    intro bs t ts hna h
    have ha : a ≠ slash := by
      intro he
      exact hna (by simp [he])
    rw [List.cons_append, split47, if_neg ha]
    rw [ih bs t ts (fun hm => hna (by simp [hm])) h]
    simp

theorem split47_joinSlash : ∀ (parts : List (List Nat)), parts ≠ [] →
    (∀ seg ∈ parts, seg ≠ [] ∧ slash ∉ seg) →
    split47 (joinSlash parts) = parts := by
  intro parts
  induction parts with
  | nil => intro h _; exact absurd rfl h
  | cons s rest ih =>
    intro _ hsegs
    cases rest with
    | nil =>
      rw [joinSlash]
      have := split47_cons_seg s [] [] [] (hsegs s (by simp)).2 (by simp [split47])
      simpa using this
    | cons s2 rest2 =>
      rw [show joinSlash (s :: s2 :: rest2) = s ++ slash :: joinSlash (s2 :: rest2) from rfl]
      have hrec : split47 (slash :: joinSlash (s2 :: rest2)) = [] :: (s2 :: rest2) := by
        rw [split47, if_pos rfl]
        rw [ih (by simp) (fun seg hseg => hsegs seg (by simp [hseg]))]
      have := split47_cons_seg s (slash :: joinSlash (s2 :: rest2)) [] (s2 :: rest2)
        (hsegs s (by simp)).2 hrec
      simpa using this

theorem joinSlash_cons_head (s : List Nat) (rest : List (List Nat)) (a : Nat) (t : List Nat)
    (hs : s = a :: t) : ∃ u, joinSlash (s :: rest) = a :: u := by
  cases rest with
  | nil => exact ⟨t, by rw [joinSlash, hs]⟩
  | cons s2 rest2 =>
    refine ⟨t ++ slash :: joinSlash (s2 :: rest2), ?_⟩
    rw [show joinSlash (s :: s2 :: rest2) = s ++ slash :: joinSlash (s2 :: rest2) from rfl, hs]
    simp

theorem joinSlash_last : ∀ (parts : List (List Nat)), parts ≠ [] →
    (∀ seg ∈ parts, seg ≠ [] ∧ slash ∉ seg) →
    ∃ a u, (joinSlash parts).reverse = a :: u ∧ a ≠ slash := by
  intro parts
  induction parts with
  | nil => intro h _; exact absurd rfl h
  | cons s rest ih =>
    intro _ hsegs
    cases rest with
    | nil =>
      obtain ⟨hne, hns⟩ := hsegs s (by simp)
      obtain ⟨a, u, hrev⟩ : ∃ a u, s.reverse = a :: u := by
        cases hr : s.reverse with
        | nil => exact absurd (by simpa using congrArg List.reverse hr) hne
        | cons a u => exact ⟨a, u, rfl⟩
      refine ⟨a, u, by rw [joinSlash, hrev], ?_⟩
      intro he
      subst he
      exact hns (by rw [← List.mem_reverse, hrev]; simp)
    | cons s2 rest2 =>
      obtain ⟨a, u, hrev, hane⟩ := ih (by simp) (fun seg hseg => hsegs seg (by simp [hseg]))
      refine ⟨a, u ++ [slash] ++ s.reverse, ?_, hane⟩
      rw [show joinSlash (s :: s2 :: rest2) = s ++ slash :: joinSlash (s2 :: rest2) from rfl]
      rw [List.reverse_append, List.reverse_cons, hrev]
      simp

theorem trim47_joinSlash (parts : List (List Nat)) (hne : parts ≠ [])
    (hsegs : ∀ seg ∈ parts, seg ≠ [] ∧ slash ∉ seg) :
    trim47 (joinSlash parts) = joinSlash parts := by
  obtain ⟨s, rest, hcons⟩ : ∃ s rest, parts = s :: rest := by
    cases parts with
    | nil => exact absurd rfl hne
    | cons s rest => exact ⟨s, rest, rfl⟩
  subst hcons
  obtain ⟨hsne, hsns⟩ := hsegs s (by simp)
  obtain ⟨a, t, hs⟩ : ∃ a t, s = a :: t := by
    cases s with
    | nil => exact absurd rfl hsne
    | cons a t => exact ⟨a, t, rfl⟩
  have hahd : a ≠ slash := by
    intro he
    exact hsns (by simp [hs, he])
  obtain ⟨u, hjoin⟩ := joinSlash_cons_head s rest a t hs
  obtain ⟨b2, u2, hrev, hbne⟩ := joinSlash_last (s :: rest) (by simp) hsegs
  rw [trim47, hjoin]
  rw [List.dropWhile_cons_of_neg (by simpa using hahd)]
  rw [← hjoin, hrev]
  rw [List.dropWhile_cons_of_neg (by simpa using hbne)]
  rw [← hrev]
  simp

theorem filter_split47_nil : (split47 []).filter (fun x => x != []) = [] := by
  simp [split47]

/-- Claim C10: resolving a path gives the same result as resolving the path
with all empty segments removed (leading, trailing and doubled slashes are
ignored), and a path made only of slashes (or empty) resolves to NotFound
rather than crashing. -/
theorem c10_empty_segments_ignored :
    (∀ (s : Store) (p : List Nat),
      findBucket s p = findBucket s (joinSlash ((split47 p).filter (fun x => x != []))))
    ∧ (∀ (s : Store) (p : List Nat), (∀ b ∈ p, b = slash) → findBucket s p = none) := by
  have hallslash : ∀ (s : Store) (p : List Nat), (∀ b ∈ p, b = slash) →
      findBucket s p = none := by
    intro s p hall
    have htr : trim47 p = [] := by
      rw [trim47]
      have h1 : p.dropWhile (fun b => b == slash) = [] :=
        List.dropWhile_eq_nil_iff.mpr (fun x hx => by simp [hall x hx])
      rw [h1]
      simp
    rw [findBucket, htr]
    simp
  refine ⟨?_, hallslash⟩
  intro s p
  have hfilter := filter_split47_trim p
  by_cases hnil : (split47 p).filter (fun x => x != []) = []
  · rw [hnil]
    rw [show findBucket s (joinSlash []) = none from rfl]
    rw [findBucket]
    by_cases htr : trim47 p = []
    · simp [htr]
    · rw [if_neg htr]
      rw [hfilter, hnil]
      simp
  · have hsegsP : ∀ seg ∈ (split47 p).filter (fun x => x != []), seg ≠ [] ∧ slash ∉ seg := by
      intro seg hseg
      rw [List.mem_filter] at hseg
      refine ⟨by simpa using hseg.2, split47_segs_no_slash p seg hseg.1⟩
    have hround := split47_joinSlash _ hnil hsegsP
    have htrimJ := trim47_joinSlash _ hnil hsegsP
    have hfilterSelf : ((split47 p).filter (fun x => x != [])).filter (fun x => x != []) =
        (split47 p).filter (fun x => x != []) :=
      List.filter_eq_self.mpr (fun a ha => by
        simpa using (hsegsP a ha).1)
    have hJne : joinSlash ((split47 p).filter (fun x => x != [])) ≠ [] := by
      intro hJ
      rw [hJ] at hround
      rw [show split47 [] = [[]] from rfl] at hround
      have : ([] : List Nat) ∈ (split47 p).filter (fun x => x != []) := by
        rw [← hround]
        simp
      exact (hsegsP [] this).1 rfl
    have htrP : trim47 p ≠ [] := by
      intro htr
      rw [htr, filter_split47_nil] at hfilter
      exact hnil hfilter.symm
    conv_lhs => rw [findBucket]
    rw [if_neg htrP, hfilter, if_neg hnil]
    conv_rhs => rw [findBucket]
    rw [htrimJ]
    rw [if_neg hJne]
    rw [hround, hfilterSelf, if_neg hnil]

/-- Witness for C10 on a concrete store and a path with doubled and
trailing slashes. -/
theorem c10_empty_segments_ignored_witness :
    findBucket [([65], Node.bucket [])] [47, 65, 47, 47]
      = findBucket [([65], Node.bucket [])]
          (joinSlash ((split47 [47, 65, 47, 47]).filter (fun x => x != [])))
    ∧ findBucket [([65], Node.bucket [])] [47, 47] = none :=
  ⟨c10_empty_segments_ignored.1 [([65], Node.bucket [])] [47, 65, 47, 47],
   c10_empty_segments_ignored.2 [([65], Node.bucket [])] [47, 47] (by decide)⟩
